import Mathlib

/-!
# SimpleVector (simple_vector.h): a shallow embedding

The class template `SimpleVector<Type>` keeps three private members: the owned
buffer `_data`, and the counters `_size` and `_capacity`.  The three are
independent fields in the source, so they are independent fields here, and the
number of slots of the buffer is *not* assumed to equal `_capacity`.

Conventions of the embedding.

* A buffer is the list of its slots.  An access `_data[i]` or `*ptr` outside
  the slots of the buffer has no defined behaviour in C++; the buffer
  primitives return `none` there and the member functions answer
  `Outcome.undefined`.
* An iterator is the offset of the pointer from `begin()`.
* `std::move` of an element is read as a copy: every slot that is moved from
  is either overwritten afterwards or lies outside the live range of the
  result, or belongs to a buffer that is released.
* `size_t` is read as `Nat`.  An object cannot have more than `PTRDIFF_MAX`
  slots, so for a buffer that really holds `_capacity` slots the products
  `_capacity * 2` stay below `2 ^ 64`.
* Allocation `ArrayPtr<Type> newArray(n)` is taken to succeed, except in the
  operations named `ReserveAlloc`, `PushBackAlloc`, `InsertAlloc` and
  `ResizeAlloc`, which are told which requests are granted and are the plain
  operations when all are.
-/

namespace SimpleVec

/-- Modelled from the spec: the owning buffer `ArrayPtr<Type>` of `array_ptr.h`,
which the sources do not contain.  It owns one block of a fixed number of
slots (none for length 0); here it is the list of the slots. -/
abbrev ArrayPtr (α : Type) := List α

/-- Modelled from the spec: `ArrayPtr<Type>(size)` of `array_ptr.h`, "allocates
storage for `length` default-initialized elements". -/
def newArrayPtr {α : Type} [Inhabited α] (size : Nat) : ArrayPtr α :=
  List.replicate size default

/-- Modelled from the spec: reading `ArrayPtr::operator[]` (or a pointer into
the block); "undefined behavior if `index` is out of the allocated range". -/
def bufRead {α : Type} (p : ArrayPtr α) (index : Nat) : Option α :=
  p[index]?

/-- Modelled from the spec: assigning through `ArrayPtr::operator[]` (or a
pointer into the block); undefined outside the allocated range. -/
def bufWrite {α : Type} (p : ArrayPtr α) (index : Nat) (v : α) : Option (ArrayPtr α) :=
  if index < p.length then some (p.set index v) else none

/-- The exceptions a member function can leave with: the two the class throws
itself, and `std::bad_alloc` of a failed allocation. -/
inductive Exn where
  | out_of_range
  | logic_error
  | bad_alloc
  deriving DecidableEq, Repr

/-- What a call does: it returns (new state and result), it throws (state at
the throw and the exception), or its behaviour is undefined. -/
inductive Outcome (σ ρ : Type) where
  | returned (s : σ) (r : ρ)
  | threw (s : σ) (e : Exn)
  | undefined
  deriving DecidableEq, Repr

/-- `class ProxyReserve` (lines 9-24). -/
structure ProxyReserve where
  _size : Nat
  deriving DecidableEq, Repr

/-- `ProxyReserve::GetSize` (lines 17-20). -/
def ProxyReserve.GetSize (p : ProxyReserve) : Nat := p._size

/-- The free function `ProxyReserve Reserve(size_t size)` (lines 26-29); the
name `Reserve` is kept for the member function. -/
def ReserveProxy (size : Nat) : ProxyReserve := { _size := size }

/-- The private members of `SimpleVector<Type>` (lines 402-404). -/
structure SimpleVector (α : Type) where
  _data : ArrayPtr α
  _size : Nat
  _capacity : Nat
  deriving DecidableEq, Repr

/-- The body of `std::copy(first, first + n, d_first)`, reading buffer `src` and
writing buffer `dst`: `n` times `*d_first++ = *first++`. -/
def copyN {α : Type} (src : ArrayPtr α) : Nat → Nat → ArrayPtr α → Nat → Option (ArrayPtr α)
  | 0, _, dst, _ => some dst
  | n + 1, first, dst, d_first =>
    match bufRead src first with
    | none => none
    | some v =>
      match bufWrite dst d_first v with
      | none => none
      | some dst1 => copyN src n (first + 1) dst1 (d_first + 1)

/-- `std::copy(first, last, d_first)` (also `std::move(first, last, d_first)` and
the calls through `std::make_move_iterator`); `[first, last)` must be a range. -/
def std_copy {α : Type} (src : ArrayPtr α) (first last : Nat) (dst : ArrayPtr α)
    (d_first : Nat) : Option (ArrayPtr α) :=
  if last < first then none else copyN src (last - first) first dst d_first

/-- The body of `std::move_backward` inside one buffer: `n` times
`*(--d_last) = std::move(*(--last))`. -/
def moveBackN {α : Type} : Nat → ArrayPtr α → Nat → Nat → Option (ArrayPtr α)
  | 0, buf, _, _ => some buf
  | n + 1, buf, last, d_last =>
    if last = 0 ∨ d_last = 0 then none
    else
      match bufRead buf (last - 1) with
      | none => none
      | some v =>
        match bufWrite buf (d_last - 1) v with
        | none => none
        | some buf1 => moveBackN n buf1 (last - 1) (d_last - 1)

/-- `std::move_backward(first, last, d_last)` inside one buffer. -/
def std_move_backward {α : Type} (buf : ArrayPtr α) (first last d_last : Nat) :
    Option (ArrayPtr α) :=
  if last < first then none else moveBackN (last - first) buf last d_last

/-- The loop of `Erase` (lines 243-248): while `iter < end_it`,
`*iter = std::move(*std::next(iter)); ++iter`; it runs `end_it - iter` times. -/
def eraseShift {α : Type} : Nat → ArrayPtr α → Nat → Option (ArrayPtr α)
  | 0, buf, _ => some buf
  | n + 1, buf, iter =>
    match bufRead buf (iter + 1) with
    | none => none
    | some v =>
      match bufWrite buf iter v with
      | none => none
      | some buf1 => eraseShift n buf1 (iter + 1)

/-- The loop of `fill_non_copyble` run `n` times: `*first++ = std::move(Type{})`. -/
def fillN {α : Type} [Inhabited α] : Nat → ArrayPtr α → Nat → Option (ArrayPtr α)
  | 0, buf, _ => some buf
  | n + 1, buf, first =>
    match bufWrite buf first default with
    | none => none
    | some buf1 => fillN n buf1 (first + 1)

/-- `fill_non_copyble(first, last)` (lines 351-357): while `first < last`, so
`last - first` times (no time when `last <= first`). -/
def fill_non_copyble {α : Type} [Inhabited α] (buf : ArrayPtr α) (first last : Nat) :
    Option (ArrayPtr α) :=
  fillN (last - first) buf first

/-- `SimpleVector() noexcept = default` (line 38). -/
def empty {α : Type} : SimpleVector α :=
  { _data := [], _size := 0, _capacity := 0 }

/-- `explicit SimpleVector(ProxyReserve proxy_size)` (lines 41-47). -/
def ofReserve {α : Type} [Inhabited α] (proxy_size : ProxyReserve) : SimpleVector α :=
  let new_size := proxy_size.GetSize
  { _data := newArrayPtr new_size, _size := 0, _capacity := new_size }

/-- `std::fill(first, first + n, value)` on a buffer. -/
def fillValueN {α : Type} : Nat → ArrayPtr α → Nat → α → Option (ArrayPtr α)
  | 0, buf, _, _ => some buf
  | n + 1, buf, first, value =>
    match bufWrite buf first value with
    | none => none
    | some buf1 => fillValueN n buf1 (first + 1) value

/-- `SimpleVector(size_t size, const Type& value)` (lines 58-66). -/
def ofSizeValue {α : Type} [Inhabited α] (size : Nat) (value : α) :
    Outcome (SimpleVector α) Unit :=
  match fillValueN size (newArrayPtr size) 0 value with
  | none => .undefined
  | some newArray => .returned { _data := newArray, _size := size, _capacity := size } ()

/-- `SimpleVector(std::initializer_list<Type> init)` (lines 69-77). -/
def ofInit {α : Type} [Inhabited α] (init : List α) : Outcome (SimpleVector α) Unit :=
  match std_copy init 0 init.length (newArrayPtr init.length) 0 with
  | none => .undefined
  | some newArray =>
    .returned { _data := newArray, _size := init.length, _capacity := init.length } ()

/-- `explicit SimpleVector(size_t size)` (lines 50-55): the buffer of
`SimpleVector tmp(size, Type{})` is swapped in. -/
def ofSize {α : Type} [Inhabited α] (size : Nat) : Outcome (SimpleVector α) Unit :=
  match ofSizeValue size (default : α) with
  | .returned tmp _ => .returned { _data := tmp._data, _size := size, _capacity := size } ()
  | .threw s e => .threw s e
  | .undefined => .undefined

/-- `SimpleVector(const SimpleVector& other)` (lines 79-88).  The state of the
result is the pair (new object, `other` afterwards); the body assigns no
member of `other`. -/
def copyCtor {α : Type} [Inhabited α] (other : SimpleVector α) :
    Outcome (SimpleVector α × SimpleVector α) Unit :=
  match std_copy other._data 0 other._size (newArrayPtr other._capacity) 0 with
  | none => .undefined
  | some newArray =>
    .returned
      ({ _data := newArray, _size := other._size, _capacity := other._capacity }, other) ()

/-- `SimpleVector(SimpleVector&& other)` (lines 90-95): the new object starts
from the member initialisers (empty buffer, 0, 0) and swaps all three members
with `other`.  The result is the pair (new object, `other` afterwards). -/
def moveCtor {α : Type} (other : SimpleVector α) : SimpleVector α × SimpleVector α :=
  ({ _data := other._data, _size := other._size, _capacity := other._capacity },
   { _data := [], _size := 0, _capacity := 0 })

/-- `operator=(const SimpleVector& rhs)` (lines 97-111) for `this != &rhs`. -/
def copyAssign {α : Type} [Inhabited α] (_this rhs : SimpleVector α) :
    Outcome (SimpleVector α) Unit :=
  match std_copy rhs._data 0 rhs._size (newArrayPtr rhs._size) 0 with
  | none => .undefined
  | some newArray =>
    .returned { _data := newArray, _size := rhs._size, _capacity := rhs._capacity } ()

/-- `operator=(SimpleVector&& rhs)` (lines 113-122) for `this != &rhs`: the
counters are copied from `rhs`, only the buffers are swapped.  The result is
the pair (`*this` afterwards, `rhs` afterwards). -/
def moveAssign {α : Type} (this rhs : SimpleVector α) : SimpleVector α × SimpleVector α :=
  ({ _data := rhs._data, _size := rhs._size, _capacity := rhs._capacity },
   { _data := this._data, _size := rhs._size, _capacity := rhs._capacity })

/-- `void Reserve(size_t new_capacity)` (lines 125-136). -/
def Reserve {α : Type} [Inhabited α] (S : SimpleVector α) (new_capacity : Nat) :
    Outcome (SimpleVector α) Unit :=
  if S._capacity < new_capacity then
    match std_copy S._data 0 S._size (newArrayPtr new_capacity) 0 with
    | none => .undefined
    | some newArray => .returned { S with _data := newArray, _capacity := new_capacity } ()
  else .returned S ()

/-- `void PushBack(Type&& item)` (lines 147-171); `PushBack(const Type&)`
(lines 140-145) calls it with a copy of its argument. -/
def PushBack {α : Type} [Inhabited α] (S : SimpleVector α) (item : α) :
    Outcome (SimpleVector α) Unit :=
  if S._size < S._capacity then
    match bufWrite S._data S._size item with
    | none => .undefined
    | some d => .returned { S with _data := d, _size := S._size + 1 } ()
  else if S._size = S._capacity then
    let cap := if S._capacity = 0 then 4 else S._capacity
    match std_copy S._data 0 S._size (newArrayPtr (cap * 2)) 0 with
    | none => .undefined
    | some newArray =>
      match bufWrite newArray S._size item with
      | none => .undefined
      | some newArray1 =>
        .returned { _data := newArray1, _size := S._size + 1, _capacity := cap * 2 } ()
  else .threw S .logic_error

/-- `Iterator Insert(ConstIterator pos, Type&& value)` (lines 182-226), with
`pos = begin() + num_pos`.  The result is the offset of the returned iterator
from `begin()` of the buffer the container owns afterwards (in the branch that
calls `PushBack` the buffer is not replaced, as `_size < _capacity` there). -/
def Insert {α : Type} [Inhabited α] (S : SimpleVector α) (num_pos : Nat) (value : α) :
    Outcome (SimpleVector α) Nat :=
  if S._size < S._capacity then
    if num_pos = S._size then
      match PushBack S value with
      | .returned S1 _ => .returned S1 num_pos
      | .threw S1 e => .threw S1 e
      | .undefined => .undefined
    else
      match std_move_backward S._data num_pos S._size (S._size + 1) with
      | none => .undefined
      | some d =>
        match bufWrite d num_pos value with
        | none => .undefined
        | some d1 => .returned { S with _data := d1, _size := S._size + 1 } num_pos
  else if S._size = S._capacity then
    let cap := if S._capacity = 0 then 1 else S._capacity * 2
    match std_copy S._data 0 num_pos (newArrayPtr cap) 0 with
    | none => .undefined
    | some ptr1 =>
      match bufWrite ptr1 num_pos value with
      | none => .undefined
      | some ptr2 =>
        match std_copy S._data num_pos S._size ptr2 (num_pos + 1) with
        | none => .undefined
        | some ptr3 =>
          .returned { _data := ptr3, _size := S._size + 1, _capacity := cap } num_pos
  else .threw S .logic_error

/-- `void PopBack() noexcept` (lines 229-235). -/
def PopBack {α : Type} (S : SimpleVector α) : Outcome (SimpleVector α) Unit :=
  if S._size ≠ 0 then .returned { S with _size := S._size - 1 } ()
  else .returned S ()

/-- `Iterator Erase(ConstIterator pos)` (lines 238-251), with
`pos = begin() + pos_num`; the result is the offset of the returned iterator.
For `_size == 0` the pointer `begin() + _size - 1` lies before the buffer. -/
def Erase {α : Type} (S : SimpleVector α) (pos_num : Nat) : Outcome (SimpleVector α) Nat :=
  if S._size = 0 then .undefined
  else
    match eraseShift (S._size - 1 - pos_num) S._data pos_num with
    | none => .undefined
    | some d => .returned { S with _data := d, _size := S._size - 1 } pos_num

/-- `void swap(SimpleVector& other) noexcept` (lines 254-264); the result is
the pair (`*this` afterwards, `other` afterwards). -/
def swap {α : Type} (this other : SimpleVector α) : SimpleVector α × SimpleVector α :=
  ({ _data := other._data, _size := other._size, _capacity := other._capacity },
   { _data := this._data, _size := this._size, _capacity := this._capacity })

/-- `GetSize` (lines 267-270). -/
def GetSize {α : Type} (S : SimpleVector α) : Nat := S._size

/-- `GetCapacity` (lines 273-276). -/
def GetCapacity {α : Type} (S : SimpleVector α) : Nat := S._capacity

/-- `IsEmpty` (lines 279-282). -/
def IsEmpty {α : Type} (S : SimpleVector α) : Bool := S._size == 0

/-- `operator[](size_t index)` (lines 285-294): no check at all. -/
def index {α : Type} (S : SimpleVector α) (i : Nat) : Outcome (SimpleVector α) α :=
  match bufRead S._data i with
  | none => .undefined
  | some v => .returned S v

/-- `At(size_t index)` (lines 298-316). -/
def At {α : Type} (S : SimpleVector α) (i : Nat) : Outcome (SimpleVector α) α :=
  if i ≥ S._size then .threw S .out_of_range
  else
    match bufRead S._data i with
    | none => .undefined
    | some v => .returned S v

/-- `void Clear() noexcept` (lines 319-322). -/
def Clear {α : Type} (S : SimpleVector α) : SimpleVector α :=
  { S with _size := 0 }

/-- `void Resize(size_t new_size)` (lines 326-349). -/
def Resize {α : Type} [Inhabited α] (S : SimpleVector α) (new_size : Nat) :
    Outcome (SimpleVector α) Unit :=
  if new_size < S._size then .returned { S with _size := new_size } ()
  else if new_size ≤ S._capacity then
    match fill_non_copyble S._data S._size (S._size + (new_size - S._size)) with
    | none => .undefined
    | some d => .returned { S with _data := d, _size := new_size } ()
  else
    match std_copy S._data 0 S._size (newArrayPtr new_size) 0 with
    | none => .undefined
    | some newArray =>
      match fill_non_copyble newArray S._size new_size with
      | none => .undefined
      | some newArray1 =>
        .returned { _data := newArray1, _size := new_size, _capacity := new_size } ()

/-- The loop of `std::equal` over `n` remaining pairs, from offset `i`. -/
def equalN {α : Type} [BEq α] (a b : ArrayPtr α) : Nat → Nat → Option Bool
  | 0, _ => some true
  | n + 1, i =>
    match bufRead a i, bufRead b i with
    | some x, some y => if x == y then equalN a b n (i + 1) else some false
    | _, _ => none

/-- `operator==` (lines 408-412); `none` when a read leaves a buffer. -/
def opEq {α : Type} [BEq α] (lhs rhs : SimpleVector α) : Option Bool :=
  if GetSize lhs ≠ GetSize rhs then some false
  else equalN lhs._data rhs._data lhs._size 0

/-- The live elements: the slots `[0, _size)` of the buffer. -/
def live {α : Type} (S : SimpleVector α) : List α := S._data.take S._size

/-- A run of `PushBack` calls, one per element of the list, in order; it stops
at the first call that does not return. -/
def pushBackAll {α : Type} [Inhabited α] (S : SimpleVector α) :
    List α → Outcome (SimpleVector α) Unit
  | [] => .returned S ()
  | x :: xs =>
    match PushBack S x with
    | .returned S1 _ => pushBackAll S1 xs
    | .threw S1 e => .threw S1 e
    | .undefined => .undefined

/-- `operator!=` (lines 414-418). -/
def opNe {α : Type} [BEq α] (lhs rhs : SimpleVector α) : Option Bool :=
  (opEq lhs rhs).map not

/-- The loop of `std::lexicographical_compare` with `n1` and `n2` elements left
in the two ranges, both at offset `i`: while neither range is exhausted,
`*first1 < *first2` answers true and `*first2 < *first1` answers false; at the
end the answer is `first1 == last1 && first2 != last2`. -/
def lexCompareN {α : Type} [LT α] [DecidableRel (fun (x y : α) => x < y)]
    (a b : ArrayPtr α) : Nat → Nat → Nat → Option Bool
  | 0, n2, _ => some (decide (n2 ≠ 0))
  | _ + 1, 0, _ => some false
  | n1 + 1, n2 + 1, i =>
    match bufRead a i, bufRead b i with
    | some x, some y =>
      if x < y then some true
      else if y < x then some false
      else lexCompareN a b n1 n2 (i + 1)
    | _, _ => none

/-- `operator<` (lines 420-424); `none` when a read leaves a buffer. -/
def opLt {α : Type} [LT α] [DecidableRel (fun (x y : α) => x < y)]
    (lhs rhs : SimpleVector α) : Option Bool :=
  lexCompareN lhs._data rhs._data lhs._size rhs._size 0

/-- `operator<=` (lines 426-430): `lhs == rhs || lhs < rhs`. -/
def opLe {α : Type} [BEq α] [LT α] [DecidableRel (fun (x y : α) => x < y)]
    (lhs rhs : SimpleVector α) : Option Bool :=
  match opEq lhs rhs with
  | none => none
  | some true => some true
  | some false => opLt lhs rhs

/-- `operator>` (lines 432-436): `!(lhs < rhs) && (lhs != rhs)`. -/
def opGt {α : Type} [BEq α] [LT α] [DecidableRel (fun (x y : α) => x < y)]
    (lhs rhs : SimpleVector α) : Option Bool :=
  match opLt lhs rhs with
  | none => none
  | some true => some false
  | some false => opNe lhs rhs

/-- `operator>=` (lines 438-442): `lhs == rhs || lhs > rhs`. -/
def opGe {α : Type} [BEq α] [LT α] [DecidableRel (fun (x y : α) => x < y)]
    (lhs rhs : SimpleVector α) : Option Bool :=
  match opEq lhs rhs with
  | none => none
  | some true => some true
  | some false => opGt lhs rhs

/-- `Iterator Insert(ConstIterator pos, const Type& value)` (lines 177-180).
The body is `return Insert(pos, std::move(value))`.  There `value` is a
`const Type&`, so `std::move(value)` is a `const Type&&`; it cannot bind to the
`Type&&` parameter of the other overload (that would drop `const`) and binds
to `const Type&`, so the call is to this same function, with the same
arguments.  Every call spends one unit of `fuel`; `none` says the fuel ran out
before a call returned. -/
def InsertConstRef {α : Type} (S : SimpleVector α) (num_pos : Nat) (value : α) :
    Nat → Option (Outcome (SimpleVector α) Nat)
  | 0 => none
  | fuel + 1 => InsertConstRef S num_pos value fuel

/-- The representation invariant: the size is at most the capacity, and the
capacity is the number of slots of the owned buffer. -/
def RepInv {α : Type} (S : SimpleVector α) : Prop :=
  S._size ≤ S._capacity ∧ S._capacity = S._data.length

instance {α : Type} (S : SimpleVector α) : Decidable (RepInv S) := by
  unfold RepInv
  exact inferInstance

/-- The containers a program can build with the constructors and the core
operations called within their preconditions (`Insert` at a position in
`[begin, end]`, `Erase` at a dereferenceable position); the assignment
operators are not among them. -/
inductive Reachable {α : Type} [Inhabited α] : SimpleVector α → Prop where
  | ctor_default : Reachable empty
  | ctor_reserve (p : ProxyReserve) : Reachable (ofReserve p)
  | ctor_size (n : Nat) (S : SimpleVector α) :
      ofSize n = .returned S () → Reachable S
  | ctor_size_value (n : Nat) (v : α) (S : SimpleVector α) :
      ofSizeValue n v = .returned S () → Reachable S
  | ctor_init (init : List α) (S : SimpleVector α) :
      ofInit init = .returned S () → Reachable S
  | ctor_copy (S C S1 : SimpleVector α) :
      Reachable S → copyCtor S = .returned (C, S1) () → Reachable C
  | ctor_move_new (S : SimpleVector α) : Reachable S → Reachable (moveCtor S).1
  | ctor_move_source (S : SimpleVector α) : Reachable S → Reachable (moveCtor S).2
  | reserve (S S1 : SimpleVector α) (n : Nat) :
      Reachable S → Reserve S n = .returned S1 () → Reachable S1
  | push_back (S S1 : SimpleVector α) (x : α) :
      Reachable S → PushBack S x = .returned S1 () → Reachable S1
  | insert (S S1 : SimpleVector α) (k r : Nat) (v : α) :
      Reachable S → k ≤ S._size → Insert S k v = .returned S1 r → Reachable S1
  | pop_back (S S1 : SimpleVector α) :
      Reachable S → PopBack S = .returned S1 () → Reachable S1
  | erase (S S1 : SimpleVector α) (i r : Nat) :
      Reachable S → i < S._size → Erase S i = .returned S1 r → Reachable S1
  | swap_this (S T : SimpleVector α) : Reachable S → Reachable T → Reachable (swap S T).1
  | swap_other (S T : SimpleVector α) : Reachable S → Reachable T → Reachable (swap S T).2
  | clear (S : SimpleVector α) : Reachable S → Reachable (Clear S)
  | resize (S S1 : SimpleVector α) (n : Nat) :
      Reachable S → Resize S n = .returned S1 () → Reachable S1

/-- Modelled from the spec: `ArrayPtr<Type>(size)` of `array_ptr.h` when the
allocation may fail ("Fails with an allocation error if memory cannot be
obtained"); `avail n` says whether a request for `n` slots is granted. -/
def tryNewArrayPtr {α : Type} [Inhabited α] (avail : Nat → Bool) (size : Nat) :
    Option (ArrayPtr α) :=
  if avail size then some (newArrayPtr size) else none

/-- `Reserve` (lines 125-136) with an allocation that may fail. -/
def ReserveAlloc {α : Type} [Inhabited α] (avail : Nat → Bool) (S : SimpleVector α)
    (new_capacity : Nat) : Outcome (SimpleVector α) Unit :=
  if S._capacity < new_capacity then
    match tryNewArrayPtr avail new_capacity with
    | none => .threw S .bad_alloc
    | some newArray0 =>
      match std_copy S._data 0 S._size newArray0 0 with
      | none => .undefined
      | some newArray => .returned { S with _data := newArray, _capacity := new_capacity } ()
  else .returned S ()

/-- `PushBack(Type&&)` (lines 147-171) with an allocation that may fail: at
capacity 0 the member `_capacity` is assigned 4 (line 157) before the
allocation of line 159. -/
def PushBackAlloc {α : Type} [Inhabited α] (avail : Nat → Bool) (S : SimpleVector α)
    (item : α) : Outcome (SimpleVector α) Unit :=
  if S._size < S._capacity then
    match bufWrite S._data S._size item with
    | none => .undefined
    | some d => .returned { S with _data := d, _size := S._size + 1 } ()
  else if S._size = S._capacity then
    let cap := if S._capacity = 0 then 4 else S._capacity
    match tryNewArrayPtr avail (cap * 2) with
    | none => .threw { S with _capacity := cap } .bad_alloc
    | some newArray0 =>
      match std_copy S._data 0 S._size newArray0 0 with
      | none => .undefined
      | some newArray =>
        match bufWrite newArray S._size item with
        | none => .undefined
        | some newArray1 =>
          .returned { _data := newArray1, _size := S._size + 1, _capacity := cap * 2 } ()
  else .threw S .logic_error

/-- `Insert(ConstIterator, Type&&)` (lines 182-226) with an allocation that may
fail: at capacity the member `_capacity` is assigned (line 204) before the
allocation of line 206. -/
def InsertAlloc {α : Type} [Inhabited α] (avail : Nat → Bool) (S : SimpleVector α)
    (num_pos : Nat) (value : α) : Outcome (SimpleVector α) Nat :=
  if S._size < S._capacity then
    if num_pos = S._size then
      match PushBackAlloc avail S value with
      | .returned S1 _ => .returned S1 num_pos
      | .threw S1 e => .threw S1 e
      | .undefined => .undefined
    else
      match std_move_backward S._data num_pos S._size (S._size + 1) with
      | none => .undefined
      | some d =>
        match bufWrite d num_pos value with
        | none => .undefined
        | some d1 => .returned { S with _data := d1, _size := S._size + 1 } num_pos
  else if S._size = S._capacity then
    let cap := if S._capacity = 0 then 1 else S._capacity * 2
    match tryNewArrayPtr avail cap with
    | none => .threw { S with _capacity := cap } .bad_alloc
    | some newArray0 =>
      match std_copy S._data 0 num_pos newArray0 0 with
      | none => .undefined
      | some ptr1 =>
        match bufWrite ptr1 num_pos value with
        | none => .undefined
        | some ptr2 =>
          match std_copy S._data num_pos S._size ptr2 (num_pos + 1) with
          | none => .undefined
          | some ptr3 =>
            .returned { _data := ptr3, _size := S._size + 1, _capacity := cap } num_pos
  else .threw S .logic_error

/-- `Resize` (lines 326-349) with an allocation that may fail. -/
def ResizeAlloc {α : Type} [Inhabited α] (avail : Nat → Bool) (S : SimpleVector α)
    (new_size : Nat) : Outcome (SimpleVector α) Unit :=
  if new_size < S._size then .returned { S with _size := new_size } ()
  else if new_size ≤ S._capacity then
    match fill_non_copyble S._data S._size (S._size + (new_size - S._size)) with
    | none => .undefined
    | some d => .returned { S with _data := d, _size := new_size } ()
  else
    match tryNewArrayPtr avail new_size with
    | none => .threw S .bad_alloc
    | some newArray0 =>
      match std_copy S._data 0 S._size newArray0 0 with
      | none => .undefined
      | some newArray =>
        match fill_non_copyble newArray S._size new_size with
        | none => .undefined
        | some newArray1 =>
          .returned { _data := newArray1, _size := new_size, _capacity := new_size } ()

/-! ## Buffer primitives and loops inside their bounds -/

theorem bufWrite_eq_some {α : Type} (p : ArrayPtr α) (i : Nat) (v : α) (h : i < p.length) :
    bufWrite p i v = some (p.set i v) := by
  simp [bufWrite, h]

theorem bufRead_eq_some {α : Type} (p : ArrayPtr α) (i : Nat) (h : i < p.length) :
    bufRead p i = some (p.get ⟨i, h⟩) := by
  simp [bufRead, List.getElem?_eq_getElem h]

/-- Inside the bounds of both buffers `copyN` succeeds; the result has the
slots of `dst`, with the `n` slots from `d` on replaced by those of `src`. -/
theorem copyN_spec {α : Type} (src : ArrayPtr α) (n : Nat) :
    ∀ (first : Nat) (dst : ArrayPtr α) (d : Nat),
      first + n ≤ src.length → d + n ≤ dst.length →
      ∃ r, copyN src n first dst d = some r ∧ r.length = dst.length ∧
        ∀ j, r[j]? = if d ≤ j ∧ j < d + n then src[first + (j - d)]? else dst[j]? := by
  induction n with
  | zero =>
    intro first dst d _ _
    refine ⟨dst, rfl, rfl, ?_⟩
    intro j
    have h0 : ¬ (d ≤ j ∧ j < d + 0) := by omega
    rw [if_neg h0]
  | succ n ih =>
    intro first dst d h1 h2
    have hf : first < src.length := by omega
    have hd : d < dst.length := by omega
    obtain ⟨r, hr, hlen, hget⟩ := ih (first + 1) (dst.set d (src.get ⟨first, hf⟩)) (d + 1)
      (by omega) (by simp; omega)
    refine ⟨r, ?_, by simpa using hlen, ?_⟩
    · simp only [copyN, bufRead_eq_some src first hf, bufWrite_eq_some dst d _ hd]
      exact hr
    · intro j
      rw [hget j]
      by_cases hj : j = d
      · subst hj
        have h3 : ¬ (j + 1 ≤ j ∧ j < j + 1 + n) := by omega
        have h4 : j ≤ j ∧ j < j + (n + 1) := by omega
        simp [h3, h4, List.getElem?_eq_getElem hf, hd]
      · by_cases hin : d + 1 ≤ j ∧ j < d + 1 + n
        · have h4 : d ≤ j ∧ j < d + (n + 1) := by omega
          have h5 : first + 1 + (j - (d + 1)) = first + (j - d) := by omega
          simp [hin, h4, h5]
        · have h4 : ¬ (d ≤ j ∧ j < d + (n + 1)) := by omega
          have h6 : d ≠ j := fun h => hj h.symm
          simp [hin, h4, List.getElem?_set_ne h6]

/-- Inside the buffer `moveBackN` towards the next slot succeeds: the `n` slots
that end at `last` are shifted one slot to the right. -/
theorem moveBackN_spec {α : Type} (n : Nat) :
    ∀ (buf : ArrayPtr α) (last d_last : Nat),
      d_last = last + 1 → n ≤ last → last + 1 ≤ buf.length →
      ∃ r, moveBackN n buf last d_last = some r ∧ r.length = buf.length ∧
        ∀ j, r[j]? = if last - n < j ∧ j ≤ last then buf[j - 1]? else buf[j]? := by
  induction n with
  | zero =>
    intro buf last d_last _ _ _
    refine ⟨buf, rfl, rfl, ?_⟩
    intro j
    have h0 : ¬ (last - 0 < j ∧ j ≤ last) := by omega
    rw [if_neg h0]
  | succ n ih =>
    intro buf last d_last hd hn hlen
    have hl : last - 1 < buf.length := by omega
    have hw : d_last - 1 < buf.length := by omega
    obtain ⟨r, hr, hrl, hget⟩ := ih (buf.set (d_last - 1) (buf.get ⟨last - 1, hl⟩))
      (last - 1) (d_last - 1) (by omega) (by omega) (by simp; omega)
    refine ⟨r, ?_, by simpa using hrl, ?_⟩
    · have hne : ¬ (last = 0 ∨ d_last = 0) := by omega
      simp only [moveBackN, if_neg hne, bufRead_eq_some buf (last - 1) hl,
        bufWrite_eq_some buf (d_last - 1) _ hw]
      exact hr
    · intro j
      rw [hget j]
      have hdl : d_last - 1 = last := by omega
      by_cases hin : last - 1 - n < j ∧ j ≤ last - 1
      · have h4 : last - (n + 1) < j ∧ j ≤ last := by omega
        have h6 : d_last - 1 ≠ j - 1 := by omega
        simp [hin, h4, List.getElem?_set_ne h6]
      · by_cases hj : j = last
        · have h4 : last - (n + 1) < j ∧ j ≤ last := by omega
          have hjl : last < buf.length := by omega
          have hv : buf[last - 1]? = some (buf.get ⟨last - 1, hl⟩) :=
            List.getElem?_eq_getElem hl
          rw [if_neg hin, if_pos h4, hdl, hj, hv]
          exact List.getElem?_set_self hjl
        · have h4 : ¬ (last - (n + 1) < j ∧ j ≤ last) := by omega
          have h6 : d_last - 1 ≠ j := by omega
          simp [hin, h4, List.getElem?_set_ne h6]

/-- Inside the buffer the loop of `Erase` succeeds: the `n` slots from `iter`
on take the value of their right neighbour. -/
theorem eraseShift_spec {α : Type} (n : Nat) :
    ∀ (buf : ArrayPtr α) (iter : Nat), iter + n < buf.length →
      ∃ r, eraseShift n buf iter = some r ∧ r.length = buf.length ∧
        ∀ j, r[j]? = if iter ≤ j ∧ j < iter + n then buf[j + 1]? else buf[j]? := by
  induction n with
  | zero =>
    intro buf iter _
    refine ⟨buf, rfl, rfl, ?_⟩
    intro j
    have h0 : ¬ (iter ≤ j ∧ j < iter + 0) := by omega
    rw [if_neg h0]
  | succ n ih =>
    intro buf iter hlen
    have hr1 : iter + 1 < buf.length := by omega
    have hw : iter < buf.length := by omega
    obtain ⟨r, hr, hrl, hget⟩ := ih (buf.set iter (buf.get ⟨iter + 1, hr1⟩)) (iter + 1)
      (by simp; omega)
    refine ⟨r, ?_, by simpa using hrl, ?_⟩
    · simp only [eraseShift, bufRead_eq_some buf (iter + 1) hr1, bufWrite_eq_some buf iter _ hw]
      exact hr
    · intro j
      rw [hget j]
      by_cases hin : iter + 1 ≤ j ∧ j < iter + 1 + n
      · have h4 : iter ≤ j ∧ j < iter + (n + 1) := by omega
        have h6 : iter ≠ j + 1 := by omega
        simp [hin, h4, List.getElem?_set_ne h6]
      · by_cases hj : j = iter
        · have h4 : iter ≤ j ∧ j < iter + (n + 1) := by omega
          subst hj
          rw [if_neg hin, if_pos h4]
          simp [List.getElem?_eq_getElem hr1, hw]
        · have h4 : ¬ (iter ≤ j ∧ j < iter + (n + 1)) := by omega
          have h6 : iter ≠ j := fun h => hj h.symm
          simp [hin, h4, List.getElem?_set_ne h6]

/-- Inside the buffer `fillValueN` succeeds and sets `n` slots from `first` on. -/
theorem fillValueN_spec {α : Type} (value : α) (n : Nat) :
    ∀ (buf : ArrayPtr α) (first : Nat), first + n ≤ buf.length →
      ∃ r, fillValueN n buf first value = some r ∧ r.length = buf.length ∧
        ∀ j, r[j]? = if first ≤ j ∧ j < first + n then some value else buf[j]? := by
  induction n with
  | zero =>
    intro buf first _
    refine ⟨buf, rfl, rfl, ?_⟩
    intro j
    have h0 : ¬ (first ≤ j ∧ j < first + 0) := by omega
    rw [if_neg h0]
  | succ n ih =>
    intro buf first hlen
    have hw : first < buf.length := by omega
    obtain ⟨r, hr, hrl, hget⟩ := ih (buf.set first value) (first + 1) (by simp; omega)
    refine ⟨r, ?_, by simpa using hrl, ?_⟩
    · simp only [fillValueN, bufWrite_eq_some buf first _ hw]
      exact hr
    · intro j
      rw [hget j]
      by_cases hin : first + 1 ≤ j ∧ j < first + 1 + n
      · have h4 : first ≤ j ∧ j < first + (n + 1) := by omega
        simp [hin, h4]
      · by_cases hj : j = first
        · have h4 : first ≤ j ∧ j < first + (n + 1) := by omega
          subst hj
          rw [if_neg hin, if_pos h4]
          simp [hw]
        · have h4 : ¬ (first ≤ j ∧ j < first + (n + 1)) := by omega
          have h6 : first ≠ j := fun h => hj h.symm
          simp [hin, h4, List.getElem?_set_ne h6]

theorem fillN_eq_fillValueN {α : Type} [Inhabited α] (n : Nat) :
    ∀ (buf : ArrayPtr α) (first : Nat), fillN n buf first = fillValueN n buf first default := by
  induction n with
  | zero => intro buf first; rfl
  | succ n ih =>
    intro buf first
    simp only [fillN, fillValueN]
    cases bufWrite buf first default with
    | none => rfl
    | some b => exact ih b (first + 1)

/-- Inside the bounds of both buffers `std_copy` succeeds; see `copyN_spec`. -/
theorem std_copy_spec {α : Type} (src : ArrayPtr α) (first last : Nat) (dst : ArrayPtr α)
    (d : Nat) (h0 : first ≤ last) (h1 : last ≤ src.length)
    (h2 : d + (last - first) ≤ dst.length) :
    ∃ r, std_copy src first last dst d = some r ∧ r.length = dst.length ∧
      ∀ j, r[j]? = if d ≤ j ∧ j < d + (last - first) then src[first + (j - d)]? else dst[j]? := by
  have hlt : ¬ last < first := by omega
  simp only [std_copy, if_neg hlt]
  exact copyN_spec src (last - first) first dst d (by omega) h2

theorem length_newArrayPtr {α : Type} [Inhabited α] (n : Nat) :
    (newArrayPtr n : ArrayPtr α).length = n := by
  simp [newArrayPtr]

theorem getElem?_newArrayPtr {α : Type} [Inhabited α] (n j : Nat) :
    (newArrayPtr n : ArrayPtr α)[j]? = if j < n then some default else none := by
  simp [newArrayPtr, List.getElem?_replicate]

/-! ## PushBack -/

/-- With spare capacity inside the buffer `PushBack` assigns one slot. -/
theorem PushBack_spare {α : Type} [Inhabited α] (S : SimpleVector α) (x : α)
    (hlt : S._size < S._capacity) (hw : S._size < S._data.length) :
    PushBack S x
      = .returned { S with _data := S._data.set S._size x, _size := S._size + 1 } () := by
  simp [PushBack, hlt, bufWrite_eq_some _ _ _ hw]

/-- At capacity, with the live elements inside the buffer, `PushBack` moves to
a fresh buffer of twice the capacity (of 8 slots from capacity 0). -/
theorem PushBack_full {α : Type} [Inhabited α] (S : SimpleVector α) (x : α)
    (heq : S._size = S._capacity) (hs : S._size ≤ S._data.length) :
    ∃ r : ArrayPtr α,
      PushBack S x =
        .returned
          { _data := r.set S._size x
            _size := S._size + 1
            _capacity := (if S._capacity = 0 then 4 else S._capacity) * 2 } () ∧
      r.length = (if S._capacity = 0 then 4 else S._capacity) * 2 ∧
      S._size < r.length ∧
      ∀ j, j < S._size → r[j]? = S._data[j]? := by
  have hlt : ¬ S._size < S._capacity := by omega
  obtain ⟨r, hr, hrl, hget⟩ := std_copy_spec S._data 0 S._size
    (newArrayPtr ((if S._capacity = 0 then 4 else S._capacity) * 2)) 0
    (Nat.zero_le _) hs
    (by rw [length_newArrayPtr]; split <;> omega)
  have hw : S._size < r.length := by
    rw [hrl, length_newArrayPtr]; split <;> omega
  refine ⟨r, ?_, by rw [hrl, length_newArrayPtr], hw, ?_⟩
  · simp only [PushBack, if_neg hlt, if_pos heq, hr, bufWrite_eq_some _ _ _ hw]
  · intro j hj
    have hin : 0 ≤ j ∧ j < 0 + (S._size - 0) := by omega
    simp only [hget j, if_pos hin]
    simp

/-- C1 (amended): for every container whose size is at most its capacity and
whose buffer has at least `_capacity` slots, and every value `x`,
`PushBack(x)` returns; afterwards the size is the old size plus one,
`operator[]` at the old size gives `x`, and every slot below the old size is
unchanged.  With spare capacity the capacity and the buffer are kept (one slot
is assigned); at capacity the container owns a buffer of exactly the new
capacity. -/
theorem PushBack_spec {α : Type} [Inhabited α] (S : SimpleVector α) (x : α)
    (hsz : S._size ≤ S._capacity) (hbuf : S._capacity ≤ S._data.length) :
    ∃ S1, PushBack S x = .returned S1 () ∧
      GetSize S1 = GetSize S + 1 ∧
      index S1 S._size = .returned S1 x ∧
      (∀ i, i < S._size → S1._data[i]? = S._data[i]?) ∧
      (S._size < S._capacity →
        GetCapacity S1 = GetCapacity S ∧ S1._data = S._data.set S._size x) ∧
      (S._size = S._capacity → S1._data.length = GetCapacity S1) := by
  by_cases hlt : S._size < S._capacity
  · have hw : S._size < S._data.length := by omega
    refine ⟨_, PushBack_spare S x hlt hw, rfl, ?_, ?_, ?_, ?_⟩
    · simp [index, bufRead, hw]
    · intro i hi
      have hne : S._size ≠ i := by omega
      simp [List.getElem?_set_ne hne]
    · intro _
      exact ⟨rfl, rfl⟩
    · intro h
      omega
  · have heq : S._size = S._capacity := by omega
    obtain ⟨r, hr, hrl, hw, hget⟩ := PushBack_full S x heq (by omega)
    refine ⟨_, hr, rfl, ?_, ?_, ?_, ?_⟩
    · simp [index, bufRead, hw]
    · intro i hi
      have hne : S._size ≠ i := by omega
      simp only [List.getElem?_set_ne hne, hget i hi]
    · intro h
      omega
    · intro _
      simp [GetCapacity, hrl]

/-- Witness of `PushBack_spec`: size 2, capacity 3, a buffer of 3 slots. -/
theorem PushBack_spec_witness :
    (2 ≤ 3 ∧ 3 ≤ [1, 2, 0].length) ∧
    ∃ S1, PushBack ({ _data := [1, 2, 0], _size := 2, _capacity := 3 } : SimpleVector Nat) 9
        = .returned S1 () ∧
      GetSize S1 = 2 + 1 ∧
      index S1 2 = .returned S1 9 ∧
      (∀ i, i < 2 → S1._data[i]? = [1, 2, 0][i]?) ∧
      (2 < 3 → GetCapacity S1 = 3 ∧ S1._data = [1, 2, 0].set 2 9) ∧
      (2 = 3 → S1._data.length = GetCapacity S1) :=
  ⟨by decide,
   PushBack_spec ({ _data := [1, 2, 0], _size := 2, _capacity := 3 } : SimpleVector Nat) 9
     (by decide) (by decide)⟩

/-- C1 (as stated) fails: copy assignment from a container built with
`Reserve(1)` leaves size 0, capacity 1 and a buffer of no slot; the size is
at most the capacity, yet `PushBack(7)` assigns `_data[0]` outside the buffer
and has no defined behaviour. -/
theorem PushBack_outside_buffer :
    copyAssign (empty : SimpleVector Nat) (ofReserve (ReserveProxy 1))
      = .returned { _data := [], _size := 0, _capacity := 1 } () ∧
    ({ _data := [], _size := 0, _capacity := 1 } : SimpleVector Nat)._size ≤ 1 ∧
    PushBack ({ _data := [], _size := 0, _capacity := 1 } : SimpleVector Nat) 7 = .undefined := by
  decide

/-- C2 (amended): for every container with size == capacity whose buffer has at
least `_capacity` slots, `PushBack` returns; the new capacity is exactly twice
the old one when the old one is positive, and exactly 8 when it is 0.  From the
empty container of capacity 0, pushing 1, 2, 3, 4 gives size 4 and capacity 8,
and a fifth push gives size 5 and capacity 8. -/
theorem PushBack_growth {α : Type} [Inhabited α] (S : SimpleVector α) (x : α)
    (heq : S._size = S._capacity) (hbuf : S._capacity ≤ S._data.length) :
    (∃ S1, PushBack S x = .returned S1 () ∧
      (0 < S._capacity → GetCapacity S1 = 2 * GetCapacity S) ∧
      (S._capacity = 0 → GetCapacity S1 = 8)) ∧
    (∃ S4 S5, pushBackAll (empty : SimpleVector Nat) [1, 2, 3, 4] = .returned S4 () ∧
      GetSize S4 = 4 ∧ GetCapacity S4 = 8 ∧
      PushBack S4 5 = .returned S5 () ∧ GetSize S5 = 5 ∧ GetCapacity S5 = 8) := by
  constructor
  · obtain ⟨r, hr, _, _, _⟩ := PushBack_full S x heq (by omega)
    refine ⟨_, hr, ?_, ?_⟩
    · intro hpos
      have hne : ¬ S._capacity = 0 := by omega
      simp only [GetCapacity, if_neg hne]
      omega
    · intro h0
      simp only [GetCapacity, if_pos h0]
  · exact ⟨{ _data := [1, 2, 3, 4, 0, 0, 0, 0], _size := 4, _capacity := 8 },
      { _data := [1, 2, 3, 4, 5, 0, 0, 0], _size := 5, _capacity := 8 }, by decide⟩

/-- Witness of `PushBack_growth`: size 2 == capacity 2, a buffer of 2 slots. -/
theorem PushBack_growth_witness :
    ((2 : Nat) = 2 ∧ 2 ≤ [7, 8].length) ∧
    ((∃ S1, PushBack ({ _data := [7, 8], _size := 2, _capacity := 2 } : SimpleVector Nat) 9
        = .returned S1 () ∧
      (0 < 2 → GetCapacity S1 = 2 * 2) ∧
      ((2 : Nat) = 0 → GetCapacity S1 = 8)) ∧
    (∃ S4 S5, pushBackAll (empty : SimpleVector Nat) [1, 2, 3, 4] = .returned S4 () ∧
      GetSize S4 = 4 ∧ GetCapacity S4 = 8 ∧
      PushBack S4 5 = .returned S5 () ∧ GetSize S5 = 5 ∧ GetCapacity S5 = 8)) :=
  ⟨by decide,
   PushBack_growth ({ _data := [7, 8], _size := 2, _capacity := 2 } : SimpleVector Nat) 9
     (by decide) (by decide)⟩

/-- C2 (as stated) fails: on the empty container of capacity 0 `PushBack`
makes the capacity 8, not 4, and after pushing 1, 2, 3, 4 the capacity is 8. -/
theorem PushBack_from_zero_capacity :
    PushBack (empty : SimpleVector Nat) 1
      = .returned { _data := [1, 0, 0, 0, 0, 0, 0, 0], _size := 1, _capacity := 8 } () ∧
    pushBackAll (empty : SimpleVector Nat) [1, 2, 3, 4]
      = .returned { _data := [1, 2, 3, 4, 0, 0, 0, 0], _size := 4, _capacity := 8 } () ∧
    GetCapacity ({ _data := [1, 2, 3, 4, 0, 0, 0, 0], _size := 4, _capacity := 8 }
      : SimpleVector Nat) ≠ 4 := by
  decide

/-! ## Insert -/

/-- The slots of `S[0..k) ++ [v] ++ S[k..size)`, one by one. -/
theorem getElem?_insertLive {α : Type} (d : List α) (size k : Nat) (v : α) (hk : k ≤ size)
    (hs : size ≤ d.length) (j : Nat) :
    ((d.take size).take k ++ v :: (d.take size).drop k)[j]? =
      if j < k then d[j]? else if j = k then some v else if j ≤ size then d[j - 1]? else none := by
  have hlen : ((d.take size).take k).length = k := by simp; omega
  by_cases h1 : j < k
  · rw [List.getElem?_append_left (by omega), if_pos h1]
    simp [List.getElem?_take, h1]
    omega
  · rw [List.getElem?_append_right (by omega), if_neg h1, hlen]
    by_cases h2 : j = k
    · subst h2; simp
    · rw [if_neg h2]
      obtain ⟨m, hm⟩ : ∃ m, j - k = m + 1 := ⟨j - k - 1, by omega⟩
      rw [hm, List.getElem?_cons_succ, List.getElem?_drop, List.getElem?_take]
      have hkm : k + m = j - 1 := by omega
      rw [hkm]
      by_cases h3 : j ≤ size
      · rw [if_pos h3, if_pos (by omega)]
      · rw [if_neg h3, if_neg (by omega)]

/-- A buffer whose slots up to `size` are those of the insertion has the
inserted sequence as its first `size + 1` slots. -/
theorem take_eq_insertLive {α : Type} (d1 d : List α) (size k : Nat) (v : α) (hk : k ≤ size)
    (hs : size ≤ d.length)
    (h : ∀ j, j ≤ size →
      d1[j]? = if j < k then d[j]? else if j = k then some v else d[j - 1]?) :
    d1.take (size + 1) = (d.take size).take k ++ v :: (d.take size).drop k := by
  apply List.ext_getElem?
  intro j
  rw [getElem?_insertLive d size k v hk hs j, List.getElem?_take]
  by_cases hj : j ≤ size
  · rw [if_pos (by omega), h j hj]
    by_cases h1 : j < k
    · simp [h1]
    · by_cases h2 : j = k
      · simp [h2]
      · simp [h1, h2, hj]
  · have h1 : ¬ j < k := by omega
    have h2 : ¬ j = k := by omega
    rw [if_neg (by omega), if_neg h1, if_neg h2, if_neg hj]

/-- What `Insert` does for a position in `[begin, end]` when the buffer has at
least `_capacity` slots: it returns the offset `k`, adds one to the size, keeps
the capacity when there is spare capacity and otherwise makes it 1 (from 0) or
twice the old one, and the slots up to the old size are those of the insertion. -/
theorem Insert_returns {α : Type} [Inhabited α] (S : SimpleVector α) (k : Nat) (v : α)
    (hsz : S._size ≤ S._capacity) (hbuf : S._capacity ≤ S._data.length) (hk : k ≤ S._size) :
    ∃ S1, Insert S k v = .returned S1 k ∧
      S1._size = S._size + 1 ∧
      S1._capacity = (if S._size < S._capacity then S._capacity
                      else if S._capacity = 0 then 1 else S._capacity * 2) ∧
      S1._capacity ≤ S1._data.length ∧
      ∀ j, j ≤ S._size →
        S1._data[j]? = if j < k then S._data[j]? else if j = k then some v else S._data[j - 1]? := by
  by_cases hlt : S._size < S._capacity
  · by_cases hend : k = S._size
    · have hw : S._size < S._data.length := by omega
      refine ⟨{ S with _data := S._data.set S._size v, _size := S._size + 1 }, ?_, rfl, ?_, ?_, ?_⟩
      · simp only [Insert, if_pos hlt, if_pos hend, PushBack_spare S v hlt hw]
      · simp [hlt]
      · simpa using hbuf
      · intro j hj
        by_cases h1 : j < k
        · have hne : S._size ≠ j := by omega
          simp [h1, List.getElem?_set_ne hne]
        · have h2 : j = k := by omega
          rw [if_neg h1, if_pos h2, h2, hend]
          exact List.getElem?_set_self hw
    · obtain ⟨r, hr, hrl, hget⟩ := moveBackN_spec (S._size - k) S._data S._size (S._size + 1)
        rfl (by omega) (by omega)
      have hw : k < r.length := by omega
      have hnl : ¬ S._size < k := by omega
      refine ⟨{ S with _data := r.set k v, _size := S._size + 1 }, ?_, rfl, ?_, ?_, ?_⟩
      · simp only [Insert, if_pos hlt, if_neg hend, std_move_backward, if_neg hnl, hr,
          bufWrite_eq_some _ _ _ hw]
      · simp [hlt]
      · simp only [List.length_set, hrl]; exact hbuf
      · intro j hj
        by_cases h2 : j = k
        · have h1 : ¬ j < k := by omega
          rw [if_neg h1, if_pos h2, h2]
          exact List.getElem?_set_self hw
        · have hne : k ≠ j := fun h => h2 h.symm
          rw [List.getElem?_set_ne hne, hget j]
          by_cases h1 : j < k
          · have h3 : ¬ (S._size - (S._size - k) < j ∧ j ≤ S._size) := by omega
            rw [if_neg h3, if_pos h1]
          · have h3 : S._size - (S._size - k) < j ∧ j ≤ S._size := by omega
            rw [if_pos h3, if_neg h1, if_neg h2]
  · have heq : S._size = S._capacity := by omega
    obtain ⟨p1, hp1, hl1, hg1⟩ := std_copy_spec S._data 0 k
      (newArrayPtr (if S._capacity = 0 then 1 else S._capacity * 2)) 0
      (Nat.zero_le _) (by omega) (by rw [length_newArrayPtr]; split <;> omega)
    rw [length_newArrayPtr] at hl1
    have hw : k < p1.length := by rw [hl1]; split <;> omega
    obtain ⟨p3, hp3, hl3, hg3⟩ := std_copy_spec S._data k S._size (p1.set k v) (k + 1)
      hk (by omega) (by rw [List.length_set, hl1]; split <;> omega)
    rw [List.length_set, hl1] at hl3
    refine ⟨{ _data := p3, _size := S._size + 1,
              _capacity := if S._capacity = 0 then 1 else S._capacity * 2 }, ?_, rfl, ?_, ?_, ?_⟩
    · simp only [Insert, if_neg hlt, if_pos heq, hp1, bufWrite_eq_some _ _ _ hw, hp3]
    · simp [hlt]
    · simp [hl3]
    · intro j hj
      rw [hg3 j]
      by_cases h1 : j < k
      · have h3 : ¬ (k + 1 ≤ j ∧ j < k + 1 + (S._size - k)) := by omega
        have hne : k ≠ j := by omega
        have h4 : 0 ≤ j ∧ j < 0 + (k - 0) := by omega
        rw [if_neg h3, if_pos h1, List.getElem?_set_ne hne, hg1 j, if_pos h4]
        simp
      · by_cases h2 : j = k
        · have h3 : ¬ (k + 1 ≤ j ∧ j < k + 1 + (S._size - k)) := by omega
          rw [if_neg h3, if_neg h1, if_pos h2, h2]
          exact List.getElem?_set_self hw
        · have h3 : k + 1 ≤ j ∧ j < k + 1 + (S._size - k) := by omega
          have h5 : k + (j - (k + 1)) = j - 1 := by omega
          rw [if_pos h3, if_neg h1, if_neg h2, h5]

/-- C3 (amended): for every container whose size is at most its capacity and
whose buffer has at least `_capacity` slots, every `k <= size` and every value
`v`, `Insert(begin() + k, v)` returns the iterator at offset `k` of the new
`begin()`; the live sequence becomes `S[0..k) ++ [v] ++ S[k..size)`, the size
grows by one and `operator[]` at `k` gives `v`; this covers the branch with
spare capacity, the branch at capacity, and `k == size`.  Scenario:
`SimpleVector(3, 'x')` then `Insert(begin() + 1, 'y')` gives x, y, x, x, size 4. -/
theorem Insert_spec {α : Type} [Inhabited α] (S : SimpleVector α) (k : Nat) (v : α)
    (hsz : S._size ≤ S._capacity) (hbuf : S._capacity ≤ S._data.length) (hk : k ≤ S._size) :
    (∃ S1, Insert S k v = .returned S1 k ∧
      live S1 = (live S).take k ++ v :: (live S).drop k ∧
      GetSize S1 = GetSize S + 1 ∧
      index S1 k = .returned S1 v) ∧
    (∃ S0 S1, ofSizeValue 3 'x' = .returned S0 () ∧ Insert S0 1 'y' = .returned S1 1 ∧
      live S1 = ['x', 'y', 'x', 'x'] ∧ GetSize S1 = 4) := by
  constructor
  · obtain ⟨S1, h1, hs1, _, _, hget⟩ := Insert_returns S k v hsz hbuf hk
    refine ⟨S1, h1, ?_, hs1, ?_⟩
    · simp only [live, hs1]
      exact take_eq_insertLive S1._data S._data S._size k v hk (by omega) hget
    · have hkk := hget k hk
      simp only [Nat.lt_irrefl, if_false, if_true] at hkk
      simp [index, bufRead, hkk]
  · exact ⟨{ _data := ['x', 'x', 'x'], _size := 3, _capacity := 3 },
      { _data := ['x', 'y', 'x', 'x', default, default], _size := 4, _capacity := 6 },
      by decide⟩

/-- Witness of `Insert_spec`: size 3, capacity 5, five slots, position 1. -/
theorem Insert_spec_witness :
    (3 ≤ 5 ∧ 5 ≤ [1, 2, 3, 0, 0].length ∧ 1 ≤ 3) ∧
    ((∃ S1, Insert ({ _data := [1, 2, 3, 0, 0], _size := 3, _capacity := 5 } : SimpleVector Nat)
          1 9 = .returned S1 1 ∧
      live S1 = (live ({ _data := [1, 2, 3, 0, 0], _size := 3, _capacity := 5 }
          : SimpleVector Nat)).take 1
        ++ 9 :: (live ({ _data := [1, 2, 3, 0, 0], _size := 3, _capacity := 5 }
          : SimpleVector Nat)).drop 1 ∧
      GetSize S1 = GetSize ({ _data := [1, 2, 3, 0, 0], _size := 3, _capacity := 5 }
          : SimpleVector Nat) + 1 ∧
      index S1 1 = .returned S1 9) ∧
    (∃ S0 S1, ofSizeValue 3 'x' = .returned S0 () ∧ Insert S0 1 'y' = .returned S1 1 ∧
      live S1 = ['x', 'y', 'x', 'x'] ∧ GetSize S1 = 4)) :=
  ⟨by decide,
   Insert_spec ({ _data := [1, 2, 3, 0, 0], _size := 3, _capacity := 5 } : SimpleVector Nat) 1 9
     (by decide) (by decide) (by decide)⟩

/-- C3 (as stated) fails: after copy assignment from a container built with
`Reserve(1)` (size 0, capacity 1, a buffer of no slot) the size is at most the
capacity and `begin() + 0` is `end()`, yet `Insert` there assigns outside the
buffer and has no defined behaviour. -/
theorem Insert_outside_buffer :
    copyAssign (empty : SimpleVector Nat) (ofReserve (ReserveProxy 1))
      = .returned { _data := [], _size := 0, _capacity := 1 } () ∧
    ({ _data := [], _size := 0, _capacity := 1 } : SimpleVector Nat)._size ≤ 1 ∧
    Insert ({ _data := [], _size := 0, _capacity := 1 } : SimpleVector Nat) 0 7 = .undefined := by
  decide

/-- C4 (amended): for every container whose buffer has at least `_capacity`
slots and every position `k <= size`, `Insert` returns; with size == capacity
the new capacity is `max(1, 2 * capacity)`, with size < capacity the capacity
is unchanged. -/
theorem Insert_capacity {α : Type} [Inhabited α] (S : SimpleVector α) (k : Nat) (v : α)
    (hsz : S._size ≤ S._capacity) (hbuf : S._capacity ≤ S._data.length) (hk : k ≤ S._size) :
    ∃ S1 r, Insert S k v = .returned S1 r ∧
      (S._size = S._capacity → GetCapacity S1 = max 1 (2 * GetCapacity S)) ∧
      (S._size < S._capacity → GetCapacity S1 = GetCapacity S) := by
  obtain ⟨S1, h1, _, hc, _, _⟩ := Insert_returns S k v hsz hbuf hk
  refine ⟨S1, k, h1, ?_, ?_⟩
  · intro heq
    have hlt : ¬ S._size < S._capacity := by omega
    rw [if_neg hlt] at hc
    simp only [GetCapacity, hc]
    split <;> omega
  · intro hlt
    rw [if_pos hlt] at hc
    exact hc

/-- Witness of `Insert_capacity`: size 2 == capacity 2, two slots, position 0. -/
theorem Insert_capacity_witness :
    (2 ≤ 2 ∧ 2 ≤ [7, 8].length ∧ 0 ≤ 2) ∧
    ∃ S1 r, Insert ({ _data := [7, 8], _size := 2, _capacity := 2 } : SimpleVector Nat) 0 9
        = .returned S1 r ∧
      ((2 : Nat) = 2 → GetCapacity S1 = max 1 (2 * 2)) ∧
      (2 < 2 → GetCapacity S1 = 2) :=
  ⟨by decide,
   Insert_capacity ({ _data := [7, 8], _size := 2, _capacity := 2 } : SimpleVector Nat) 0 9
     (by decide) (by decide) (by decide)⟩

/-- C4 (as stated) fails: move assignment `A = std::move(B)` into an empty `A`
leaves `B` with size 2 == capacity 2 and the buffer of `A`, which has no slot;
`Insert` at `begin()` of that `B` reads outside the buffer.  With size 0 <
capacity 2 and no slot (copy assignment from `Reserve(2)`), `Insert` does not
return either, so the capacity is not kept. -/
theorem Insert_capacity_outside_buffer :
    ofInit [1, 2] = .returned ({ _data := [1, 2], _size := 2, _capacity := 2 } : SimpleVector Nat) () ∧
    (moveAssign (empty : SimpleVector Nat) { _data := [1, 2], _size := 2, _capacity := 2 }).2
      = { _data := [], _size := 2, _capacity := 2 } ∧
    Insert ({ _data := [], _size := 2, _capacity := 2 } : SimpleVector Nat) 0 9 = .undefined ∧
    copyAssign (empty : SimpleVector Nat) (ofReserve (ReserveProxy 2))
      = .returned { _data := [], _size := 0, _capacity := 2 } () ∧
    Insert ({ _data := [], _size := 0, _capacity := 2 } : SimpleVector Nat) 0 9 = .undefined := by
  decide

/-! ## Erase -/

/-- The slots of `S[0..i) ++ S[i+1..size)`, one by one. -/
theorem getElem?_eraseLive {α : Type} (d : List α) (size i : Nat) (hi : i < size)
    (hs : size ≤ d.length) (j : Nat) :
    ((d.take size).take i ++ (d.take size).drop (i + 1))[j]? =
      if j < i then d[j]? else if j + 1 < size then d[j + 1]? else none := by
  have hlen : ((d.take size).take i).length = i := by simp; omega
  by_cases h1 : j < i
  · rw [List.getElem?_append_left (by omega), if_pos h1]
    simp [List.getElem?_take, h1]
    omega
  · rw [List.getElem?_append_right (by omega), if_neg h1, hlen, List.getElem?_drop,
      List.getElem?_take]
    have hij : i + 1 + (j - i) = j + 1 := by omega
    rw [hij]

/-- What `Erase` does at a position `i < size` when the live elements lie
inside the buffer. -/
theorem Erase_returns {α : Type} (S : SimpleVector α) (i : Nat)
    (hi : i < S._size) (hs : S._size ≤ S._data.length) :
    ∃ S1, Erase S i = .returned S1 i ∧
      S1._size = S._size - 1 ∧ S1._capacity = S._capacity ∧
      S1._data.length = S._data.length ∧
      ∀ j, S1._data[j]? = if i ≤ j ∧ j < S._size - 1 then S._data[j + 1]? else S._data[j]? := by
  obtain ⟨r, hr, hrl, hget⟩ := eraseShift_spec (S._size - 1 - i) S._data i (by omega)
  have hne : ¬ S._size = 0 := by omega
  refine ⟨{ S with _data := r, _size := S._size - 1 }, ?_, rfl, rfl, hrl, ?_⟩
  · simp only [Erase, if_neg hne, hr]
  · intro j
    rw [hget j]
    by_cases h : i ≤ j ∧ j < S._size - 1
    · rw [if_pos h, if_pos (by omega)]
    · rw [if_neg h, if_neg (by omega)]

/-- C5 (amended): for every container whose size is at most its capacity and
whose buffer has at least `_capacity` slots, and every index `i < size`,
`Erase(begin() + i)` returns (the iterator at offset `i`); the live sequence
becomes `S[0..i) ++ S[i+1..size)`, the size drops by exactly one and the
capacity is unchanged.  Scenario: from the list 10, 20, 30, `Erase(begin() + 1)`
gives 10, 30 with size 2 and capacity 3. -/
theorem Erase_spec {α : Type} (S : SimpleVector α) (i : Nat)
    (hsz : S._size ≤ S._capacity) (hbuf : S._capacity ≤ S._data.length) (hi : i < S._size) :
    (∃ S1, Erase S i = .returned S1 i ∧
      live S1 = (live S).take i ++ (live S).drop (i + 1) ∧
      GetSize S1 + 1 = GetSize S ∧
      GetCapacity S1 = GetCapacity S) ∧
    (∃ S0 S1, ofInit [10, 20, 30] = .returned S0 () ∧ Erase S0 1 = .returned S1 1 ∧
      live S1 = [10, 30] ∧ GetSize S1 = 2 ∧ GetCapacity S1 = 3) := by
  constructor
  · obtain ⟨S1, h1, hs1, hc1, _, hget⟩ := Erase_returns S i hi (by omega)
    refine ⟨S1, h1, ?_, ?_, hc1⟩
    · simp only [live, hs1]
      apply List.ext_getElem?
      intro j
      rw [getElem?_eraseLive S._data S._size i hi (by omega) j, List.getElem?_take, hget j]
      by_cases h1 : j < i
      · rw [if_pos h1, if_pos (by omega), if_neg (by omega)]
      · by_cases h2 : j + 1 < S._size
        · rw [if_neg h1, if_pos h2, if_pos (by omega), if_pos (by omega)]
        · rw [if_neg h1, if_neg h2, if_neg (by omega)]
    · simp only [GetSize, hs1]
      omega
  · exact ⟨{ _data := [10, 20, 30], _size := 3, _capacity := 3 },
      { _data := [10, 30, 30], _size := 2, _capacity := 3 }, by decide⟩

/-- Witness of `Erase_spec`: size 3, capacity 4, four slots, index 0. -/
theorem Erase_spec_witness :
    (3 ≤ 4 ∧ 4 ≤ [5, 6, 7, 0].length ∧ 0 < 3) ∧
    ((∃ S1, Erase ({ _data := [5, 6, 7, 0], _size := 3, _capacity := 4 } : SimpleVector Nat) 0
        = .returned S1 0 ∧
      live S1 = (live ({ _data := [5, 6, 7, 0], _size := 3, _capacity := 4 }
          : SimpleVector Nat)).take 0
        ++ (live ({ _data := [5, 6, 7, 0], _size := 3, _capacity := 4 }
          : SimpleVector Nat)).drop (0 + 1) ∧
      GetSize S1 + 1 = GetSize ({ _data := [5, 6, 7, 0], _size := 3, _capacity := 4 }
          : SimpleVector Nat) ∧
      GetCapacity S1 = GetCapacity ({ _data := [5, 6, 7, 0], _size := 3, _capacity := 4 }
          : SimpleVector Nat)) ∧
    (∃ S0 S1, ofInit [10, 20, 30] = .returned S0 () ∧ Erase S0 1 = .returned S1 1 ∧
      live S1 = [10, 30] ∧ GetSize S1 = 2 ∧ GetCapacity S1 = 3)) :=
  ⟨by decide,
   Erase_spec ({ _data := [5, 6, 7, 0], _size := 3, _capacity := 4 } : SimpleVector Nat) 0
     (by decide) (by decide) (by decide)⟩

/-- C5 (as stated) fails: move assignment `A = std::move(B)` into an empty `A`
leaves `B` with size 2, capacity 2 and the buffer of `A`, which has no slot;
the size is at most the capacity and 0 < size, yet `Erase(begin())` reads
`begin()[1]` outside the buffer and has no defined behaviour. -/
theorem Erase_outside_buffer :
    (moveAssign (empty : SimpleVector Nat) { _data := [1, 2], _size := 2, _capacity := 2 }).2
      = { _data := [], _size := 2, _capacity := 2 } ∧
    ({ _data := [], _size := 2, _capacity := 2 } : SimpleVector Nat)._size ≤ 2 ∧
    Erase ({ _data := [], _size := 2, _capacity := 2 } : SimpleVector Nat) 0 = .undefined := by
  decide

/-! ## Resize -/

/-- Inside the buffer `fill_non_copyble` sets the slots `[first, last)` to the
default value. -/
theorem fill_non_copyble_spec {α : Type} [Inhabited α] (buf : ArrayPtr α) (first last : Nat)
    (h : first + (last - first) ≤ buf.length) :
    ∃ r, fill_non_copyble buf first last = some r ∧ r.length = buf.length ∧
      ∀ j, r[j]? = if first ≤ j ∧ j < last then some default else buf[j]? := by
  obtain ⟨r, hr, hrl, hget⟩ := fillValueN_spec (default : α) (last - first) buf first h
  refine ⟨r, ?_, hrl, ?_⟩
  · rw [fill_non_copyble, fillN_eq_fillValueN]
    exact hr
  · intro j
    rw [hget j]
    by_cases hin : first ≤ j ∧ j < last
    · rw [if_pos hin, if_pos (by omega)]
    · rw [if_neg hin, if_neg (by omega)]

/-- What `Resize` does when the buffer has at least `_capacity` slots. -/
theorem Resize_returns {α : Type} [Inhabited α] (S : SimpleVector α) (n : Nat)
    (hsz : S._size ≤ S._capacity) (hbuf : S._capacity ≤ S._data.length) :
    ∃ S1, Resize S n = .returned S1 () ∧
      S1._size = n ∧
      S1._capacity = (if n ≤ S._capacity then S._capacity else n) ∧
      S1._capacity ≤ S1._data.length ∧
      (∀ j, j < S._size → S1._data[j]? = S._data[j]?) ∧
      (∀ j, S._size ≤ j → j < n → S1._data[j]? = some default) := by
  by_cases h1 : n < S._size
  · refine ⟨{ S with _size := n }, ?_, rfl, ?_, hbuf, ?_, ?_⟩
    · simp only [Resize, if_pos h1]
    · rw [if_pos (by omega)]
    · intro j _
      rfl
    · intro j hj hn
      omega
  · by_cases h2 : n ≤ S._capacity
    · obtain ⟨r, hr, hrl, hget⟩ := fill_non_copyble_spec S._data S._size
        (S._size + (n - S._size)) (by omega)
      refine ⟨{ S with _data := r, _size := n }, ?_, rfl, ?_, ?_, ?_, ?_⟩
      · simp only [Resize, if_neg h1, if_pos h2, hr]
      · rw [if_pos h2]
      · simp only [hrl]; exact hbuf
      · intro j hj
        simp only [hget j]
        rw [if_neg (by omega)]
      · intro j hj hn
        simp only [hget j]
        rw [if_pos (by omega)]
    · obtain ⟨p1, hp1, hl1, hg1⟩ := std_copy_spec S._data 0 S._size (newArrayPtr n) 0
        (Nat.zero_le _) (by omega) (by rw [length_newArrayPtr]; omega)
      rw [length_newArrayPtr] at hl1
      obtain ⟨p2, hp2, hl2, hg2⟩ := fill_non_copyble_spec p1 S._size n (by omega)
      refine ⟨{ _data := p2, _size := n, _capacity := n }, ?_, rfl, ?_, ?_, ?_, ?_⟩
      · simp only [Resize, if_neg h1, if_neg h2, hp1, hp2]
      · rw [if_neg h2]
      · simp only [hl2, hl1]; exact Nat.le_refl n
      · intro j hj
        have hin : 0 ≤ j ∧ j < 0 + (S._size - 0) := by omega
        simp only [hg2 j, hg1 j]
        rw [if_neg (by omega), if_pos hin]
        simp
      · intro j hj hn
        simp only [hg2 j]
        rw [if_pos ⟨hj, hn⟩]

/-- C6 (amended): for every container whose size is at most its capacity and
whose buffer has at least `_capacity` slots, and every `n`, `Resize(n)`
returns; afterwards the size is `n`, the slots below `min(old_size, n)` are
unchanged, every slot in `[old_size, n)` holds the default value whatever the
buffer held there before, the capacity is unchanged when `n <=` old capacity
and equal to `n` when `n >` old capacity. -/
theorem Resize_spec {α : Type} [Inhabited α] (S : SimpleVector α) (n : Nat)
    (hsz : S._size ≤ S._capacity) (hbuf : S._capacity ≤ S._data.length) :
    ∃ S1, Resize S n = .returned S1 () ∧
      GetSize S1 = n ∧
      (∀ i, i < min S._size n → S1._data[i]? = S._data[i]?) ∧
      (∀ i, S._size ≤ i → i < n → index S1 i = .returned S1 default) ∧
      (n ≤ S._capacity → GetCapacity S1 = GetCapacity S) ∧
      (S._capacity < n → GetCapacity S1 = n) := by
  obtain ⟨S1, h1, hs1, hc1, _, hkeep, hnew⟩ := Resize_returns S n hsz hbuf
  refine ⟨S1, h1, hs1, ?_, ?_, ?_, ?_⟩
  · intro i hi
    exact hkeep i (by omega)
  · intro i hi hn
    simp [index, bufRead, hnew i hi hn]
  · intro h
    rw [if_pos h] at hc1
    exact hc1
  · intro h
    rw [if_neg (by omega)] at hc1
    exact hc1

/-- Witness of `Resize_spec`: size 2, capacity 5, and stale values 3, 4, 5 in
the slots beyond the size; `Resize(4)`. -/
theorem Resize_spec_witness :
    (2 ≤ 5 ∧ 5 ≤ [1, 2, 3, 4, 5].length) ∧
    ∃ S1, Resize ({ _data := [1, 2, 3, 4, 5], _size := 2, _capacity := 5 } : SimpleVector Nat) 4
        = .returned S1 () ∧
      GetSize S1 = 4 ∧
      (∀ i, i < min 2 4 → S1._data[i]? = [1, 2, 3, 4, 5][i]?) ∧
      (∀ i, 2 ≤ i → i < 4 → index S1 i = .returned S1 default) ∧
      (4 ≤ 5 → GetCapacity S1 = 5) ∧
      (5 < 4 → GetCapacity S1 = 4) :=
  ⟨by decide,
   Resize_spec ({ _data := [1, 2, 3, 4, 5], _size := 2, _capacity := 5 } : SimpleVector Nat) 4
     (by decide) (by decide)⟩

/-- C6 (as stated) fails: after copy assignment from a container built with
`Reserve(1)` (size 0, capacity 1, a buffer of no slot) the size is at most the
capacity, yet `Resize(1)` assigns `begin()[0]` outside the buffer and has no
defined behaviour. -/
theorem Resize_outside_buffer :
    copyAssign (empty : SimpleVector Nat) (ofReserve (ReserveProxy 1))
      = .returned { _data := [], _size := 0, _capacity := 1 } () ∧
    ({ _data := [], _size := 0, _capacity := 1 } : SimpleVector Nat)._size ≤ 1 ∧
    Resize ({ _data := [], _size := 0, _capacity := 1 } : SimpleVector Nat) 1 = .undefined := by
  decide

/-! ## Reserve -/

/-- Two buffers with the same first `size` slots have the same live part. -/
theorem take_eq_take_of_getElem? {α : Type} (d1 d : List α) (size : Nat)
    (h : ∀ j, j < size → d1[j]? = d[j]?) : d1.take size = d.take size := by
  apply List.ext_getElem?
  intro j
  rw [List.getElem?_take, List.getElem?_take]
  by_cases hj : j < size
  · rw [if_pos hj, if_pos hj, h j hj]
  · rw [if_neg hj, if_neg hj]

/-- What `Reserve` does when the live elements lie inside the buffer. -/
theorem Reserve_returns {α : Type} [Inhabited α] (S : SimpleVector α) (n : Nat)
    (hsz : S._size ≤ S._capacity) (hs : S._size ≤ S._data.length) :
    ∃ S1, Reserve S n = .returned S1 () ∧
      S1._size = S._size ∧
      S1._capacity = max S._capacity n ∧
      (n ≤ S._capacity → S1 = S) ∧
      (S._capacity < n → S1._data.length = n) ∧
      ∀ j, j < S._size → S1._data[j]? = S._data[j]? := by
  by_cases h : S._capacity < n
  · obtain ⟨r, hr, hrl, hget⟩ := std_copy_spec S._data 0 S._size (newArrayPtr n) 0
      (Nat.zero_le _) hs (by rw [length_newArrayPtr]; omega)
    rw [length_newArrayPtr] at hrl
    refine ⟨{ S with _data := r, _capacity := n }, ?_, rfl, ?_, ?_, ?_, ?_⟩
    · simp only [Reserve, if_pos h, hr]
    · simp only []
      omega
    · intro h2
      omega
    · intro _
      exact hrl
    · intro j hj
      have hin : 0 ≤ j ∧ j < 0 + (S._size - 0) := by omega
      simp only [hget j]
      rw [if_pos hin]
      simp
  · refine ⟨S, ?_, rfl, ?_, ?_, ?_, ?_⟩
    · simp only [Reserve, if_neg h]
    · omega
    · intro _
      rfl
    · intro h2
      omega
    · intro j _
      rfl

/-- C7 (amended): for every container whose size is at most its capacity and
whose buffer has at least `_capacity` slots, and every `n`, `Reserve(n)`
returns and leaves the size and the live elements unchanged; the resulting
capacity is `max(old capacity, n)`, and for `n <= capacity` the container is
left exactly as it was. -/
theorem Reserve_spec {α : Type} [Inhabited α] (S : SimpleVector α) (n : Nat)
    (hsz : S._size ≤ S._capacity) (hbuf : S._capacity ≤ S._data.length) :
    ∃ S1, Reserve S n = .returned S1 () ∧
      GetSize S1 = GetSize S ∧
      live S1 = live S ∧
      GetCapacity S1 = max (GetCapacity S) n ∧
      (n ≤ GetCapacity S → S1 = S) := by
  obtain ⟨S1, h1, hs1, hc1, hnoop, _, hget⟩ := Reserve_returns S n hsz (by omega)
  refine ⟨S1, h1, hs1, ?_, hc1, hnoop⟩
  simp only [live, hs1]
  exact take_eq_take_of_getElem? S1._data S._data S._size hget

/-- Witness of `Reserve_spec`: size 2, capacity 3, three slots; `Reserve(6)`. -/
theorem Reserve_spec_witness :
    (2 ≤ 3 ∧ 3 ≤ [4, 5, 6].length) ∧
    ∃ S1, Reserve ({ _data := [4, 5, 6], _size := 2, _capacity := 3 } : SimpleVector Nat) 6
        = .returned S1 () ∧
      GetSize S1 = GetSize ({ _data := [4, 5, 6], _size := 2, _capacity := 3 } : SimpleVector Nat) ∧
      live S1 = live ({ _data := [4, 5, 6], _size := 2, _capacity := 3 } : SimpleVector Nat) ∧
      GetCapacity S1
        = max (GetCapacity ({ _data := [4, 5, 6], _size := 2, _capacity := 3 } : SimpleVector Nat)) 6 ∧
      (6 ≤ GetCapacity ({ _data := [4, 5, 6], _size := 2, _capacity := 3 } : SimpleVector Nat) →
        S1 = { _data := [4, 5, 6], _size := 2, _capacity := 3 }) :=
  ⟨by decide,
   Reserve_spec ({ _data := [4, 5, 6], _size := 2, _capacity := 3 } : SimpleVector Nat) 6
     (by decide) (by decide)⟩

/-- C7 (as stated) fails: move assignment `A = std::move(B)` into an empty `A`
leaves `B` with size 2, capacity 2 and a buffer of no slot; the size is at most
the capacity, yet `Reserve(3)` copies `[begin(), end())` from outside the
buffer and has no defined behaviour. -/
theorem Reserve_outside_buffer :
    (moveAssign (empty : SimpleVector Nat) { _data := [1, 2], _size := 2, _capacity := 2 }).2
      = { _data := [], _size := 2, _capacity := 2 } ∧
    ({ _data := [], _size := 2, _capacity := 2 } : SimpleVector Nat)._size ≤ 2 ∧
    Reserve ({ _data := [], _size := 2, _capacity := 2 } : SimpleVector Nat) 3 = .undefined := by
  decide

/-! ## PopBack -/

/-- C8: for every container, if it is not empty `PopBack` returns with the
size one less, the capacity unchanged and the buffer (so every slot below
`size - 1`) unchanged; if it is empty `PopBack` returns and changes nothing. -/
theorem PopBack_spec {α : Type} (S : SimpleVector α) :
    (IsEmpty S = false →
      ∃ S1, PopBack S = .returned S1 () ∧
        GetSize S1 + 1 = GetSize S ∧
        GetCapacity S1 = GetCapacity S ∧
        (∀ i, i < S._size - 1 → S1._data[i]? = S._data[i]?) ∧
        S1._data = S._data) ∧
    (IsEmpty S = true →
      PopBack S = .returned S () ∧ GetSize S = 0) := by
  constructor
  · intro hne
    have h0 : S._size ≠ 0 := by simpa [IsEmpty] using hne
    refine ⟨{ S with _size := S._size - 1 }, ?_, ?_, rfl, ?_, rfl⟩
    · simp [PopBack, h0]
    · simp only [GetSize]
      omega
    · intro i _
      rfl
  · intro he
    have h0 : S._size = 0 := by simpa [IsEmpty] using he
    simp [PopBack, h0, GetSize]

/-- Witness of `PopBack_spec`: a container of size 3, and the empty one. -/
theorem PopBack_spec_witness :
    (∃ S1, PopBack ({ _data := [1, 2, 3], _size := 3, _capacity := 3 } : SimpleVector Nat)
        = .returned S1 () ∧
      GetSize S1 + 1 = 3 ∧ GetCapacity S1 = 3 ∧
      (∀ i, i < 3 - 1 → S1._data[i]? = [1, 2, 3][i]?) ∧ S1._data = [1, 2, 3]) ∧
    (PopBack (empty : SimpleVector Nat) = .returned empty () ∧
      GetSize (empty : SimpleVector Nat) = 0) :=
  ⟨(PopBack_spec ({ _data := [1, 2, 3], _size := 3, _capacity := 3 } : SimpleVector Nat)).1
     (by decide),
   (PopBack_spec (empty : SimpleVector Nat)).2 (by decide)⟩

/-! ## At and operator[] -/

/-- C9: for every container and every index `i`, `At(i)` throws
`std::out_of_range` if and only if `i >= size`; for `i < size` it does what the
unchecked `operator[](i)` does (inside the buffer both return the slot `i`);
whether it returns or throws, the container it leaves is the one it was
called on; an index with `size <= i < capacity` is rejected as well. -/
theorem At_spec {α : Type} (S : SimpleVector α) (i : Nat) :
    ((∃ s, At S i = .threw s .out_of_range) ↔ i ≥ GetSize S) ∧
    (i < GetSize S → At S i = index S i) ∧
    (i < GetSize S → ∀ h : i < S._data.length,
      At S i = .returned S (S._data.get ⟨i, h⟩) ∧
      index S i = .returned S (S._data.get ⟨i, h⟩)) ∧
    (∀ s r, At S i = .returned s r → s = S) ∧
    (∀ s e, At S i = .threw s e → s = S ∧ e = .out_of_range) ∧
    (GetSize S ≤ i → i < GetCapacity S → At S i = .threw S .out_of_range) := by
  refine ⟨?_, ?_, ?_, ?_, ?_, ?_⟩
  · constructor
    · rintro ⟨s, hs⟩
      by_contra hlt
      have hlt2 : ¬ i ≥ S._size := hlt
      simp only [At, if_neg hlt2] at hs
      cases hb : bufRead S._data i <;> simp [hb] at hs
    · intro hge
      have hge2 : i ≥ S._size := hge
      exact ⟨S, by simp only [At, if_pos hge2]⟩
  · intro hlt
    have hlt2 : ¬ i ≥ S._size := by simp only [GetSize] at hlt; omega
    simp only [At, if_neg hlt2, index]
  · intro hlt h
    have hlt2 : ¬ i ≥ S._size := by simp only [GetSize] at hlt; omega
    simp only [At, index, if_neg hlt2, bufRead_eq_some S._data i h, and_self]
  · intro s r hr
    by_cases hge : i ≥ S._size
    · simp only [At, if_pos hge] at hr
      exact absurd hr (by simp)
    · simp only [At, if_neg hge] at hr
      cases hb : bufRead S._data i with
      | none => simp [hb] at hr
      | some v =>
        simp only [hb, Outcome.returned.injEq] at hr
        exact hr.1.symm
  · intro s e he
    by_cases hge : i ≥ S._size
    · simp only [At, if_pos hge, Outcome.threw.injEq] at he
      exact ⟨he.1.symm, he.2.symm⟩
    · simp only [At, if_neg hge] at he
      cases hb : bufRead S._data i <;> simp [hb] at he
  · intro hge _
    have hge2 : i ≥ S._size := hge
    simp only [At, if_pos hge2]

/-- Witness of `At_spec`: size 2, capacity 4; index 1 is live, index 3 is an
allocated slot that is not live. -/
theorem At_spec_witness :
    (At ({ _data := [5, 6, 7, 8], _size := 2, _capacity := 4 } : SimpleVector Nat) 1
      = index ({ _data := [5, 6, 7, 8], _size := 2, _capacity := 4 } : SimpleVector Nat) 1) ∧
    (At ({ _data := [5, 6, 7, 8], _size := 2, _capacity := 4 } : SimpleVector Nat) 1
      = .returned { _data := [5, 6, 7, 8], _size := 2, _capacity := 4 } 6) ∧
    (At ({ _data := [5, 6, 7, 8], _size := 2, _capacity := 4 } : SimpleVector Nat) 3
      = .threw { _data := [5, 6, 7, 8], _size := 2, _capacity := 4 } .out_of_range) :=
  ⟨(At_spec ({ _data := [5, 6, 7, 8], _size := 2, _capacity := 4 } : SimpleVector Nat) 1).2.1
      (by decide),
   ((At_spec ({ _data := [5, 6, 7, 8], _size := 2, _capacity := 4 } : SimpleVector Nat) 1).2.2.1
      (by decide) (by decide)).1,
   (At_spec ({ _data := [5, 6, 7, 8], _size := 2, _capacity := 4 } : SimpleVector Nat) 3).2.2.2.2.2
      (by decide) (by decide)⟩

/-! ## Copy construction -/

/-- On slots that agree pairwise inside both buffers the loop of `std::equal`
answers true, for an element equality that is reflexive. -/
theorem equalN_of_getElem? {α : Type} [BEq α] [ReflBEq α] (a b : ArrayPtr α) (n : Nat) :
    ∀ i, i + n ≤ a.length → (∀ j, i ≤ j → j < i + n → a[j]? = b[j]?) →
      equalN a b n i = some true := by
  induction n with
  | zero => intro i _ _; rfl
  | succ n ih =>
    intro i hlen h
    have hi : i < a.length := by omega
    have hb : b[i]? = some (a.get ⟨i, hi⟩) := by
      rw [← h i (Nat.le_refl i) (by omega)]
      exact List.getElem?_eq_getElem hi
    have ha : bufRead a i = some (a.get ⟨i, hi⟩) := bufRead_eq_some a i hi
    have hb2 : bufRead b i = some (a.get ⟨i, hi⟩) := hb
    simp only [equalN, ha, hb2, BEq.refl, if_true]
    exact ih (i + 1) (by omega) (fun j h1 h2 => h j (by omega) (by omega))

/-- What the copy constructor does when the live elements of the source lie
inside its buffer and fit its capacity. -/
theorem copyCtor_returns {α : Type} [Inhabited α] (S : SimpleVector α)
    (hsz : S._size ≤ S._capacity) (hs : S._size ≤ S._data.length) :
    ∃ r : ArrayPtr α,
      copyCtor S
        = .returned ({ _data := r, _size := S._size, _capacity := S._capacity }, S) () ∧
      r.length = S._capacity ∧
      ∀ j, j < S._size → r[j]? = S._data[j]? := by
  obtain ⟨r, hr, hrl, hget⟩ := std_copy_spec S._data 0 S._size (newArrayPtr S._capacity) 0
    (Nat.zero_le _) hs (by rw [length_newArrayPtr]; omega)
  rw [length_newArrayPtr] at hrl
  refine ⟨r, ?_, hrl, ?_⟩
  · simp only [copyCtor, hr]
  · intro j hj
    have hin : 0 ≤ j ∧ j < 0 + (S._size - 0) := by omega
    simp only [hget j]
    rw [if_pos hin]
    simp

/-- C10 (amended): for every container `S` whose size is at most its capacity
and whose buffer has at least `_capacity` slots, the copy constructor returns a
container `C` with `C == S` (for a reflexive element equality), the same live
elements, `C.GetSize() == S.GetSize()` and `C.GetCapacity() == S.GetCapacity()`,
and `S` itself is unchanged. -/
theorem copyCtor_spec {α : Type} [Inhabited α] [BEq α] [ReflBEq α] (S : SimpleVector α)
    (hsz : S._size ≤ S._capacity) (hbuf : S._capacity ≤ S._data.length) :
    ∃ C S1, copyCtor S = .returned (C, S1) () ∧
      opEq C S = some true ∧
      live C = live S ∧
      GetSize C = GetSize S ∧
      GetCapacity C = GetCapacity S ∧
      S1 = S := by
  obtain ⟨r, hr, hrl, hget⟩ := copyCtor_returns S hsz (by omega)
  refine ⟨_, S, hr, ?_, ?_, rfl, rfl, rfl⟩
  · simp only [opEq, GetSize, ne_eq, not_true_eq_false, if_false]
    exact equalN_of_getElem? r S._data S._size 0 (by omega) (fun j _ h2 => hget j (by omega))
  · simp only [live]
    exact take_eq_take_of_getElem? r S._data S._size hget

/-- Witness of `copyCtor_spec`: size 2, capacity 3, three slots. -/
theorem copyCtor_spec_witness :
    (2 ≤ 3 ∧ 3 ≤ [4, 5, 6].length) ∧
    ∃ C S1, copyCtor ({ _data := [4, 5, 6], _size := 2, _capacity := 3 } : SimpleVector Nat)
        = .returned (C, S1) () ∧
      opEq C ({ _data := [4, 5, 6], _size := 2, _capacity := 3 } : SimpleVector Nat) = some true ∧
      live C = live ({ _data := [4, 5, 6], _size := 2, _capacity := 3 } : SimpleVector Nat) ∧
      GetSize C = GetSize ({ _data := [4, 5, 6], _size := 2, _capacity := 3 } : SimpleVector Nat) ∧
      GetCapacity C
        = GetCapacity ({ _data := [4, 5, 6], _size := 2, _capacity := 3 } : SimpleVector Nat) ∧
      S1 = { _data := [4, 5, 6], _size := 2, _capacity := 3 } :=
  ⟨by decide,
   copyCtor_spec ({ _data := [4, 5, 6], _size := 2, _capacity := 3 } : SimpleVector Nat)
     (by decide) (by decide)⟩

/-- C10 (as stated) fails: move assignment `A = std::move(B)` into an empty `A`
leaves `B` with size 2, capacity 2 and a buffer of no slot; the size is at most
the capacity, yet copy construction from that `B` copies `[begin(), end())`
from outside the buffer and has no defined behaviour. -/
theorem copyCtor_outside_buffer :
    (moveAssign (empty : SimpleVector Nat) { _data := [1, 2], _size := 2, _capacity := 2 }).2
      = { _data := [], _size := 2, _capacity := 2 } ∧
    ({ _data := [], _size := 2, _capacity := 2 } : SimpleVector Nat)._size ≤ 2 ∧
    copyCtor ({ _data := [], _size := 2, _capacity := 2 } : SimpleVector Nat) = .undefined := by
  decide

/-! ## Move construction -/

/-- C11: for every container `S`, move construction gives the new object the
buffer of `S` (so its live elements), its size and its capacity, and leaves `S`
empty and valid: size 0, capacity 0 and a buffer of no slot. -/
theorem moveCtor_spec {α : Type} (S : SimpleVector α) :
    (moveCtor S).1._data = S._data ∧
    live (moveCtor S).1 = live S ∧
    GetSize (moveCtor S).1 = GetSize S ∧
    GetCapacity (moveCtor S).1 = GetCapacity S ∧
    GetSize (moveCtor S).2 = 0 ∧
    GetCapacity (moveCtor S).2 = 0 ∧
    (moveCtor S).2._data = [] ∧
    IsEmpty (moveCtor S).2 = true ∧
    RepInv (moveCtor S).2 := by
  refine ⟨rfl, rfl, rfl, rfl, rfl, rfl, rfl, rfl, ?_⟩
  simp [RepInv, moveCtor]

/-! ## Constructors -/

/-- `SimpleVector(size, value)` returns `size` slots that all hold `value`. -/
theorem ofSizeValue_returns {α : Type} [Inhabited α] (n : Nat) (v : α) :
    ∃ r : ArrayPtr α,
      ofSizeValue n v = .returned { _data := r, _size := n, _capacity := n } () ∧
      r.length = n ∧ ∀ j, j < n → r[j]? = some v := by
  obtain ⟨r, hr, hrl, hget⟩ := fillValueN_spec v n (newArrayPtr n) 0
    (by rw [length_newArrayPtr]; omega)
  rw [length_newArrayPtr] at hrl
  refine ⟨r, ?_, hrl, ?_⟩
  · simp only [ofSizeValue, hr]
  · intro j hj
    rw [hget j, if_pos (by omega)]

/-- `SimpleVector(size)` returns `size` slots that all hold the default value. -/
theorem ofSize_returns {α : Type} [Inhabited α] (n : Nat) :
    ∃ r : ArrayPtr α,
      ofSize n = .returned { _data := r, _size := n, _capacity := n } () ∧
      r.length = n ∧ ∀ j, j < n → r[j]? = some (default : α) := by
  obtain ⟨r, hr, hrl, hget⟩ := ofSizeValue_returns n (default : α)
  exact ⟨r, by simp only [ofSize, hr], hrl, hget⟩

/-- `SimpleVector(init)` returns the slots of the list. -/
theorem ofInit_returns {α : Type} [Inhabited α] (init : List α) :
    ∃ r : ArrayPtr α,
      ofInit init
        = .returned { _data := r, _size := init.length, _capacity := init.length } () ∧
      r.length = init.length ∧ ∀ j, j < init.length → r[j]? = init[j]? := by
  obtain ⟨r, hr, hrl, hget⟩ := std_copy_spec init 0 init.length (newArrayPtr init.length) 0
    (Nat.zero_le _) (Nat.le_refl _) (by rw [length_newArrayPtr]; omega)
  rw [length_newArrayPtr] at hrl
  refine ⟨r, ?_, hrl, ?_⟩
  · simp only [ofInit, hr]
  · intro j hj
    have hin : 0 ≤ j ∧ j < 0 + (init.length - 0) := by omega
    rw [hget j, if_pos hin]
    simp

/-- C15: the default constructor gives size = capacity = 0;
`SimpleVector(Reserve(n))` gives size 0 and capacity `n`; `SimpleVector(n)`
returns size = capacity = `n` with every element equal to the default value;
`SimpleVector(n, v)` returns size = capacity = `n` with every element equal to
`v`; `SimpleVector(L)` returns size = capacity = length of `L` with element
`i` equal to `L[i]` for every `i`. -/
theorem constructors_spec {α : Type} [Inhabited α] (n : Nat) (v : α) (L : List α) :
    (GetSize (empty : SimpleVector α) = 0 ∧ GetCapacity (empty : SimpleVector α) = 0) ∧
    (GetSize (ofReserve (ReserveProxy n) : SimpleVector α) = 0 ∧
      GetCapacity (ofReserve (ReserveProxy n) : SimpleVector α) = n) ∧
    (∃ S : SimpleVector α, ofSize n = .returned S () ∧
      GetSize S = n ∧ GetCapacity S = n ∧
      ∀ i, i < n → index S i = .returned S default) ∧
    (∃ S, ofSizeValue n v = .returned S () ∧
      GetSize S = n ∧ GetCapacity S = n ∧
      ∀ i, i < n → index S i = .returned S v) ∧
    (∃ S, ofInit L = .returned S () ∧
      GetSize S = L.length ∧ GetCapacity S = L.length ∧
      ∀ i (h : i < L.length), index S i = .returned S (L.get ⟨i, h⟩)) := by
  refine ⟨⟨rfl, rfl⟩, ⟨rfl, rfl⟩, ?_, ?_, ?_⟩
  · obtain ⟨r, hr, _, hget⟩ := @ofSize_returns α _ n
    refine ⟨_, hr, rfl, rfl, ?_⟩
    intro i hi
    simp [index, bufRead, hget i hi]
  · obtain ⟨r, hr, _, hget⟩ := ofSizeValue_returns n v
    refine ⟨_, hr, rfl, rfl, ?_⟩
    intro i hi
    simp [index, bufRead, hget i hi]
  · obtain ⟨r, hr, _, hget⟩ := ofInit_returns L
    refine ⟨_, hr, rfl, rfl, ?_⟩
    intro i hi
    simp only [index, bufRead, hget i hi, List.getElem?_eq_getElem hi]
    rfl

/-- Witness of `constructors_spec`: `n = 2`, `v = 7` and the list 10, 20, 30. -/
theorem constructors_spec_witness :
    (∃ S : SimpleVector Nat, ofSizeValue 2 7 = .returned S () ∧
      GetSize S = 2 ∧ GetCapacity S = 2 ∧
      ∀ i, i < 2 → index S i = .returned S 7) ∧
    (∃ S : SimpleVector Nat, ofInit [10, 20, 30] = .returned S () ∧
      GetSize S = [10, 20, 30].length ∧ GetCapacity S = [10, 20, 30].length ∧
      ∀ i (h : i < [10, 20, 30].length), index S i = .returned S ([10, 20, 30].get ⟨i, h⟩)) :=
  ⟨(constructors_spec 2 7 [10, 20, 30]).2.2.2.1, (constructors_spec 2 7 [10, 20, 30]).2.2.2.2⟩

/-! ## The representation invariant -/

theorem bufWrite_length {α : Type} (p q : ArrayPtr α) (i : Nat) (v : α)
    (h : bufWrite p i v = some q) : q.length = p.length := by
  unfold bufWrite at h
  split at h
  · simp only [Option.some.injEq] at h
    rw [← h, List.length_set]
  · exact absurd h (by simp)

theorem copyN_length {α : Type} (src : ArrayPtr α) (n : Nat) :
    ∀ (first : Nat) (dst : ArrayPtr α) (d : Nat) (r : ArrayPtr α),
      copyN src n first dst d = some r → r.length = dst.length := by
  induction n with
  | zero =>
    intro first dst d r h
    simp only [copyN, Option.some.injEq] at h
    rw [← h]
  | succ n ih =>
    intro first dst d r h
    simp only [copyN] at h
    cases hr : bufRead src first with
    | none => simp [hr] at h
    | some v =>
      cases hw : bufWrite dst d v with
      | none => simp [hr, hw] at h
      | some dst1 =>
        simp only [hr, hw] at h
        rw [ih (first + 1) dst1 (d + 1) r h, bufWrite_length dst dst1 d v hw]

theorem std_copy_length {α : Type} (src : ArrayPtr α) (first last : Nat) (dst : ArrayPtr α)
    (d : Nat) (r : ArrayPtr α) (h : std_copy src first last dst d = some r) :
    r.length = dst.length := by
  unfold std_copy at h
  split at h
  · exact absurd h (by simp)
  · exact copyN_length src _ first dst d r h

theorem moveBackN_length {α : Type} (n : Nat) :
    ∀ (buf : ArrayPtr α) (last d_last : Nat) (r : ArrayPtr α),
      moveBackN n buf last d_last = some r → r.length = buf.length := by
  induction n with
  | zero =>
    intro buf last d_last r h
    simp only [moveBackN, Option.some.injEq] at h
    rw [← h]
  | succ n ih =>
    intro buf last d_last r h
    simp only [moveBackN] at h
    split at h
    · exact absurd h (by simp)
    · cases hr : bufRead buf (last - 1) with
      | none => simp [hr] at h
      | some v =>
        cases hw : bufWrite buf (d_last - 1) v with
        | none => simp [hr, hw] at h
        | some buf1 =>
          simp only [hr, hw] at h
          rw [ih buf1 (last - 1) (d_last - 1) r h, bufWrite_length buf buf1 _ v hw]

theorem fillValueN_length {α : Type} (value : α) (n : Nat) :
    ∀ (buf : ArrayPtr α) (first : Nat) (r : ArrayPtr α),
      fillValueN n buf first value = some r → r.length = buf.length := by
  induction n with
  | zero =>
    intro buf first r h
    simp only [fillValueN, Option.some.injEq] at h
    rw [← h]
  | succ n ih =>
    intro buf first r h
    simp only [fillValueN] at h
    cases hw : bufWrite buf first value with
    | none => simp [hw] at h
    | some buf1 =>
      simp only [hw] at h
      rw [ih buf1 (first + 1) r h, bufWrite_length buf buf1 _ value hw]

theorem fill_non_copyble_length {α : Type} [Inhabited α] (buf : ArrayPtr α) (first last : Nat)
    (r : ArrayPtr α) (h : fill_non_copyble buf first last = some r) :
    r.length = buf.length := by
  rw [fill_non_copyble, fillN_eq_fillValueN] at h
  exact fillValueN_length default _ buf first r h

/-- The buffer a returning `PushBack` leaves: the old number of slots with
spare capacity, otherwise as many slots as the new capacity. -/
theorem PushBack_data_length {α : Type} [Inhabited α] (S S1 : SimpleVector α) (x : α)
    (h : PushBack S x = .returned S1 ()) :
    (S._size < S._capacity → S1._data.length = S._data.length ∧ S1._capacity = S._capacity) ∧
    (¬ S._size < S._capacity → S1._data.length = S1._capacity) := by
  unfold PushBack at h
  by_cases hlt : S._size < S._capacity
  · refine ⟨fun _ => ?_, fun hn => absurd hlt hn⟩
    rw [if_pos hlt] at h
    cases hw : bufWrite S._data S._size x with
    | none => simp [hw] at h
    | some d =>
      simp only [hw, Outcome.returned.injEq, and_true] at h
      rw [← h]
      exact ⟨bufWrite_length _ _ _ _ hw, rfl⟩
  · refine ⟨fun hp => absurd hp hlt, fun _ => ?_⟩
    rw [if_neg hlt] at h
    by_cases heq : S._size = S._capacity
    · rw [if_pos heq] at h
      dsimp only at h
      split at h
      · exact absurd h (by simp)
      · rename_i na hc
        split at h
        · exact absurd h (by simp)
        · rename_i na1 hw
          simp only [Outcome.returned.injEq, and_true] at h
          rw [← h]
          dsimp only
          rw [bufWrite_length _ _ _ _ hw, std_copy_length _ _ _ _ _ _ hc, length_newArrayPtr]
    · rw [if_neg heq] at h
      exact absurd h (by simp)

/-- The buffer a returning `Insert` leaves. -/
theorem Insert_data_length {α : Type} [Inhabited α] (S S1 : SimpleVector α) (k r : Nat) (v : α)
    (h : Insert S k v = .returned S1 r) :
    (S._size < S._capacity → S1._data.length = S._data.length ∧ S1._capacity = S._capacity) ∧
    (¬ S._size < S._capacity → S1._data.length = S1._capacity) := by
  unfold Insert at h
  by_cases hlt : S._size < S._capacity
  · refine ⟨fun _ => ?_, fun hn => absurd hlt hn⟩
    rw [if_pos hlt] at h
    by_cases hend : k = S._size
    · rw [if_pos hend] at h
      split at h
      · rename_i S2 u hp
        simp only [Outcome.returned.injEq] at h
        rw [← h.1]
        exact (PushBack_data_length S S2 v hp).1 hlt
      · exact absurd h (by simp)
      · exact absurd h (by simp)
    · rw [if_neg hend] at h
      split at h
      · exact absurd h (by simp)
      · rename_i d hm
        split at h
        · exact absurd h (by simp)
        · rename_i d1 hw
          simp only [Outcome.returned.injEq] at h
          rw [← h.1]
          dsimp only
          unfold std_move_backward at hm
          split at hm
          · exact absurd hm (by simp)
          · rw [bufWrite_length _ _ _ _ hw, moveBackN_length _ _ _ _ _ hm]
            exact ⟨rfl, rfl⟩
  · refine ⟨fun hp => absurd hp hlt, fun _ => ?_⟩
    rw [if_neg hlt] at h
    by_cases heq : S._size = S._capacity
    · rw [if_pos heq] at h
      dsimp only at h
      split at h
      · exact absurd h (by simp)
      · rename_i p1 hc1
        split at h
        · exact absurd h (by simp)
        · rename_i p2 hw
          split at h
          · exact absurd h (by simp)
          · rename_i p3 hc3
            simp only [Outcome.returned.injEq] at h
            rw [← h.1]
            dsimp only
            rw [std_copy_length _ _ _ _ _ _ hc3, bufWrite_length _ _ _ _ hw,
              std_copy_length _ _ _ _ _ _ hc1, length_newArrayPtr]
    · rw [if_neg heq] at h
      exact absurd h (by simp)

/-- The buffer a returning `Resize` leaves. -/
theorem Resize_data_length {α : Type} [Inhabited α] (S S1 : SimpleVector α) (n : Nat)
    (hsz : S._size ≤ S._capacity) (h : Resize S n = .returned S1 ()) :
    (n ≤ S._capacity → S1._data.length = S._data.length) ∧
    (S._capacity < n → S1._data.length = n) := by
  unfold Resize at h
  by_cases h1 : n < S._size
  · rw [if_pos h1] at h
    simp only [Outcome.returned.injEq, and_true] at h
    rw [← h]
    exact ⟨fun _ => rfl, fun hc => absurd hc (by omega)⟩
  · rw [if_neg h1] at h
    by_cases h2 : n ≤ S._capacity
    · rw [if_pos h2] at h
      refine ⟨fun _ => ?_, fun hc => absurd hc (by omega)⟩
      split at h
      · exact absurd h (by simp)
      · rename_i d hf
        simp only [Outcome.returned.injEq, and_true] at h
        rw [← h]
        exact fill_non_copyble_length _ _ _ _ hf
    · rw [if_neg h2] at h
      refine ⟨fun hc => absurd hc h2, fun _ => ?_⟩
      split at h
      · exact absurd h (by simp)
      · rename_i p1 hc1
        split at h
        · exact absurd h (by simp)
        · rename_i p2 hf
          simp only [Outcome.returned.injEq, and_true] at h
          rw [← h]
          dsimp only
          rw [fill_non_copyble_length _ _ _ _ hf, std_copy_length _ _ _ _ _ _ hc1,
            length_newArrayPtr]

/-- The constructors establish the representation invariant. -/
theorem RepInv_constructors {α : Type} [Inhabited α] (n : Nat) (v : α) (L : List α) :
    RepInv (empty : SimpleVector α) ∧
    RepInv (ofReserve (ReserveProxy n) : SimpleVector α) ∧
    (∃ S : SimpleVector α, ofSize n = .returned S () ∧ RepInv S) ∧
    (∃ S, ofSizeValue n v = .returned S () ∧ RepInv S) ∧
    (∃ S, ofInit L = .returned S () ∧ RepInv S) := by
  refine ⟨?_, ?_, ?_, ?_, ?_⟩
  · simp [RepInv, empty]
  · simp [RepInv, ofReserve, ReserveProxy, ProxyReserve.GetSize, length_newArrayPtr]
  · obtain ⟨r, hr, hrl, _⟩ := @ofSize_returns α _ n
    exact ⟨_, hr, Nat.le_refl n, hrl.symm⟩
  · obtain ⟨r, hr, hrl, _⟩ := ofSizeValue_returns n v
    exact ⟨_, hr, Nat.le_refl n, hrl.symm⟩
  · obtain ⟨r, hr, hrl, _⟩ := ofInit_returns L
    exact ⟨_, hr, Nat.le_refl _, hrl.symm⟩

theorem RepInv_copyCtor {α : Type} [Inhabited α] (S : SimpleVector α) (h : RepInv S) :
    ∃ C, copyCtor S = .returned (C, S) () ∧ RepInv C := by
  obtain ⟨r, hr, hrl, _⟩ := copyCtor_returns S h.1 (by rw [← h.2]; exact h.1)
  exact ⟨_, hr, h.1, hrl.symm⟩

theorem RepInv_moveCtor {α : Type} (S : SimpleVector α) (h : RepInv S) :
    RepInv (moveCtor S).1 ∧ RepInv (moveCtor S).2 := by
  constructor
  · exact h
  · simp [RepInv, moveCtor]

theorem RepInv_Reserve {α : Type} [Inhabited α] (S : SimpleVector α) (n : Nat) (h : RepInv S) :
    ∃ S1, Reserve S n = .returned S1 () ∧ RepInv S1 := by
  obtain ⟨S1, h1, hs1, hc1, hnoop, hgrow, _⟩ :=
    Reserve_returns S n h.1 (by rw [← h.2]; exact h.1)
  refine ⟨S1, h1, ?_⟩
  by_cases hn : n ≤ S._capacity
  · rw [hnoop hn]
    exact h
  · have hl := hgrow (by omega)
    have h0 := h.1
    constructor
    · rw [hs1, hc1]
      omega
    · rw [hc1, hl]
      omega

theorem RepInv_PushBack {α : Type} [Inhabited α] (S : SimpleVector α) (x : α) (h : RepInv S) :
    ∃ S1, PushBack S x = .returned S1 () ∧ RepInv S1 := by
  have h0 := h.1
  have h2 := h.2
  by_cases hlt : S._size < S._capacity
  · refine ⟨_, PushBack_spare S x hlt (by omega), ?_, ?_⟩
    · dsimp only
      omega
    · simp only [List.length_set]
      exact h2
  · obtain ⟨r, hr, hrl, _, _⟩ := PushBack_full S x (by omega) (by omega)
    refine ⟨_, hr, ?_, ?_⟩
    · dsimp only
      split <;> omega
    · simp only [List.length_set]
      exact hrl.symm

theorem RepInv_Insert {α : Type} [Inhabited α] (S : SimpleVector α) (k : Nat) (v : α)
    (h : RepInv S) (hk : k ≤ S._size) :
    ∃ S1, Insert S k v = .returned S1 k ∧ RepInv S1 := by
  have h0 := h.1
  have h2 := h.2
  obtain ⟨S1, h1, hs1, hc1, _, _⟩ := Insert_returns S k v h.1 (by omega) hk
  have hl := Insert_data_length S S1 k k v h1
  refine ⟨S1, h1, ?_, ?_⟩
  · rw [hs1, hc1]
    split
    · omega
    · split <;> omega
  · by_cases hlt : S._size < S._capacity
    · rw [(hl.1 hlt).1, (hl.1 hlt).2]
      exact h2
    · exact (hl.2 hlt).symm

theorem RepInv_PopBack {α : Type} (S : SimpleVector α) (h : RepInv S) :
    ∃ S1, PopBack S = .returned S1 () ∧ RepInv S1 := by
  have h0 := h.1
  by_cases hz : S._size = 0
  · exact ⟨S, by simp [PopBack, hz], h⟩
  · refine ⟨{ S with _size := S._size - 1 }, by simp [PopBack, hz], ?_, h.2⟩
    dsimp only
    omega

theorem RepInv_Erase {α : Type} (S : SimpleVector α) (i : Nat) (h : RepInv S)
    (hi : i < S._size) :
    ∃ S1, Erase S i = .returned S1 i ∧ RepInv S1 := by
  have h0 := h.1
  have h2 := h.2
  obtain ⟨S1, h1, hs1, hc1, hl1, _⟩ := Erase_returns S i hi (by omega)
  refine ⟨S1, h1, ?_, ?_⟩
  · rw [hs1, hc1]
    omega
  · rw [hc1, hl1]
    exact h2

theorem RepInv_swap {α : Type} (S T : SimpleVector α) (hS : RepInv S) (hT : RepInv T) :
    RepInv (swap S T).1 ∧ RepInv (swap S T).2 :=
  ⟨hT, hS⟩

theorem RepInv_Clear {α : Type} (S : SimpleVector α) (h : RepInv S) : RepInv (Clear S) :=
  ⟨Nat.zero_le _, h.2⟩

theorem RepInv_Resize {α : Type} [Inhabited α] (S : SimpleVector α) (n : Nat) (h : RepInv S) :
    ∃ S1, Resize S n = .returned S1 () ∧ RepInv S1 := by
  have h0 := h.1
  have h2 := h.2
  obtain ⟨S1, h1, hs1, hc1, _, _, _⟩ := Resize_returns S n h.1 (by omega)
  have hl := Resize_data_length S S1 n h.1 h1
  refine ⟨S1, h1, ?_, ?_⟩
  · rw [hs1, hc1]
    split <;> omega
  · by_cases hn : n ≤ S._capacity
    · rw [hc1, if_pos hn, hl.1 hn]
      exact h2
    · rw [hc1, if_neg hn, hl.2 (by omega)]

/-- `PushBack` throws only in its last branch, where `_size > _capacity`. -/
theorem PushBack_threw {α : Type} [Inhabited α] (S s : SimpleVector α) (x : α) (e : Exn)
    (h : PushBack S x = .threw s e) : S._capacity < S._size ∧ e = .logic_error := by
  unfold PushBack at h
  by_cases hlt : S._size < S._capacity
  · rw [if_pos hlt] at h
    split at h <;> exact absurd h (by simp)
  · rw [if_neg hlt] at h
    by_cases heq : S._size = S._capacity
    · rw [if_pos heq] at h
      dsimp only at h
      split at h
      · exact absurd h (by simp)
      · split at h <;> exact absurd h (by simp)
    · rw [if_neg heq] at h
      simp only [Outcome.threw.injEq] at h
      exact ⟨by omega, h.2.symm⟩

/-- `Insert` throws only in its last branch, where `_size > _capacity`. -/
theorem Insert_threw {α : Type} [Inhabited α] (S s : SimpleVector α) (k : Nat) (v : α) (e : Exn)
    (h : Insert S k v = .threw s e) : S._capacity < S._size ∧ e = .logic_error := by
  unfold Insert at h
  by_cases hlt : S._size < S._capacity
  · rw [if_pos hlt] at h
    by_cases hend : k = S._size
    · rw [if_pos hend] at h
      split at h
      · exact absurd h (by simp)
      · rename_i S2 e2 hp
        have hp2 := (PushBack_threw S S2 v e2 hp).1
        omega
      · exact absurd h (by simp)
    · rw [if_neg hend] at h
      split at h
      · exact absurd h (by simp)
      · split at h <;> exact absurd h (by simp)
  · rw [if_neg hlt] at h
    by_cases heq : S._size = S._capacity
    · rw [if_pos heq] at h
      dsimp only at h
      split at h
      · exact absurd h (by simp)
      · split at h
        · exact absurd h (by simp)
        · split at h <;> exact absurd h (by simp)
    · rw [if_neg heq] at h
      simp only [Outcome.threw.injEq] at h
      exact ⟨by omega, h.2.symm⟩

/-- Every reachable container satisfies the representation invariant. -/
theorem Reachable_RepInv {α : Type} [Inhabited α] (S : SimpleVector α) (h : Reachable S) :
    RepInv S := by
  induction h with
  | ctor_default => exact (RepInv_constructors 0 (default : α) []).1
  | ctor_reserve p => exact (RepInv_constructors p._size (default : α) []).2.1
  | ctor_size n S hS =>
    obtain ⟨S0, h0, hi⟩ := (RepInv_constructors n (default : α) []).2.2.1
    rw [h0] at hS
    simp only [Outcome.returned.injEq, and_true] at hS
    exact hS ▸ hi
  | ctor_size_value n v S hS =>
    obtain ⟨S0, h0, hi⟩ := (RepInv_constructors n v []).2.2.2.1
    rw [h0] at hS
    simp only [Outcome.returned.injEq, and_true] at hS
    exact hS ▸ hi
  | ctor_init init S hS =>
    obtain ⟨S0, h0, hi⟩ := (RepInv_constructors 0 (default : α) init).2.2.2.2
    rw [h0] at hS
    simp only [Outcome.returned.injEq, and_true] at hS
    exact hS ▸ hi
  | ctor_copy S C S1 _ hC ih =>
    obtain ⟨C0, h0, hi⟩ := RepInv_copyCtor S ih
    rw [h0] at hC
    simp only [Outcome.returned.injEq, Prod.mk.injEq, and_true] at hC
    exact hC.1 ▸ hi
  | ctor_move_new S _ ih => exact (RepInv_moveCtor S ih).1
  | ctor_move_source S _ ih => exact (RepInv_moveCtor S ih).2
  | reserve S S1 n _ hop ih =>
    obtain ⟨S0, h0, hi⟩ := RepInv_Reserve S n ih
    rw [h0] at hop
    simp only [Outcome.returned.injEq, and_true] at hop
    exact hop ▸ hi
  | push_back S S1 x _ hop ih =>
    obtain ⟨S0, h0, hi⟩ := RepInv_PushBack S x ih
    rw [h0] at hop
    simp only [Outcome.returned.injEq, and_true] at hop
    exact hop ▸ hi
  | insert S S1 k r v _ hk hop ih =>
    obtain ⟨S0, h0, hi⟩ := RepInv_Insert S k v ih hk
    rw [h0] at hop
    simp only [Outcome.returned.injEq] at hop
    exact hop.1 ▸ hi
  | pop_back S S1 _ hop ih =>
    obtain ⟨S0, h0, hi⟩ := RepInv_PopBack S ih
    rw [h0] at hop
    simp only [Outcome.returned.injEq, and_true] at hop
    exact hop ▸ hi
  | erase S S1 i r _ hlt hop ih =>
    obtain ⟨S0, h0, hi⟩ := RepInv_Erase S i ih hlt
    rw [h0] at hop
    simp only [Outcome.returned.injEq] at hop
    exact hop.1 ▸ hi
  | swap_this S T _ _ ihS ihT => exact (RepInv_swap S T ihS ihT).1
  | swap_other S T _ _ ihS ihT => exact (RepInv_swap S T ihS ihT).2
  | clear S _ ih => exact RepInv_Clear S ih
  | resize S S1 n _ hop ih =>
    obtain ⟨S0, h0, hi⟩ := RepInv_Resize S n ih
    rw [h0] at hop
    simp only [Outcome.returned.injEq, and_true] at hop
    exact hop ▸ hi

/-- The representation invariant on the paths where every allocation is
granted: it holds after every constructor (default, reserve, sized, sized with
a value, list, copy, move), and every core operation called within its
precondition returns and preserves it (`Reserve`, `PushBack`, `Insert` at a
position in `[begin, end]`, `PopBack`, `Erase` at a dereferenceable position,
`swap` for both containers, `Clear`, `Resize`).  So every container reachable
from a constructor through these returning calls satisfies it, and on such a
container neither `PushBack` nor `Insert` reaches its `size > capacity` branch
that throws `std::logic_error`.  The exits with `std::bad_alloc` are not
covered here. -/
theorem RepInv_invariant {α : Type} [Inhabited α] :
    (∀ (n : Nat) (v : α) (L : List α),
      RepInv (empty : SimpleVector α) ∧
      RepInv (ofReserve (ReserveProxy n) : SimpleVector α) ∧
      (∃ S : SimpleVector α, ofSize n = .returned S () ∧ RepInv S) ∧
      (∃ S, ofSizeValue n v = .returned S () ∧ RepInv S) ∧
      (∃ S, ofInit L = .returned S () ∧ RepInv S)) ∧
    (∀ S : SimpleVector α, RepInv S →
      (∃ C, copyCtor S = .returned (C, S) () ∧ RepInv C) ∧
      RepInv (moveCtor S).1 ∧ RepInv (moveCtor S).2) ∧
    (∀ S : SimpleVector α, RepInv S →
      (∀ n, ∃ S1, Reserve S n = .returned S1 () ∧ RepInv S1) ∧
      (∀ x, ∃ S1, PushBack S x = .returned S1 () ∧ RepInv S1) ∧
      (∀ k v, k ≤ S._size → ∃ S1, Insert S k v = .returned S1 k ∧ RepInv S1) ∧
      (∃ S1, PopBack S = .returned S1 () ∧ RepInv S1) ∧
      (∀ i, i < S._size → ∃ S1, Erase S i = .returned S1 i ∧ RepInv S1) ∧
      (∀ T, RepInv T → RepInv (swap S T).1 ∧ RepInv (swap S T).2) ∧
      RepInv (Clear S) ∧
      (∀ n, ∃ S1, Resize S n = .returned S1 () ∧ RepInv S1)) ∧
    (∀ S : SimpleVector α, Reachable S →
      RepInv S ∧
      ¬ S._capacity < S._size ∧
      (∀ x s e, PushBack S x ≠ .threw s e) ∧
      (∀ k v s e, Insert S k v ≠ .threw s e)) := by
  refine ⟨fun n v L => RepInv_constructors n v L, ?_, ?_, ?_⟩
  · intro S h
    exact ⟨RepInv_copyCtor S h, RepInv_moveCtor S h⟩
  · intro S h
    exact ⟨fun n => RepInv_Reserve S n h, fun x => RepInv_PushBack S x h,
      fun k v hk => RepInv_Insert S k v h hk, RepInv_PopBack S h,
      fun i hi => RepInv_Erase S i h hi, fun T hT => RepInv_swap S T h hT,
      RepInv_Clear S h, fun n => RepInv_Resize S n h⟩
  · intro S hS
    have hinv := Reachable_RepInv S hS
    have h0 := hinv.1
    refine ⟨hinv, by omega, ?_, ?_⟩
    · intro x s e hthrew
      have := (PushBack_threw S s x e hthrew).1
      omega
    · intro k v s e hthrew
      have := (Insert_threw S s k v e hthrew).1
      omega

/-- An instance of `RepInv_invariant`: the container of the list 1, 2 (size 2,
capacity 2, two slots) satisfies the invariant, and so does what `PushBack(3)`
and `Insert(begin() + 1, 9)` return from it. -/
theorem RepInv_invariant_witness :
    RepInv ({ _data := [1, 2], _size := 2, _capacity := 2 } : SimpleVector Nat) ∧
    (∃ S1, PushBack ({ _data := [1, 2], _size := 2, _capacity := 2 } : SimpleVector Nat) 3
        = .returned S1 () ∧ RepInv S1) ∧
    (∃ S1, Insert ({ _data := [1, 2], _size := 2, _capacity := 2 } : SimpleVector Nat) 1 9
        = .returned S1 1 ∧ RepInv S1) :=
  ⟨by decide,
   ((@RepInv_invariant Nat _).2.2.1
      { _data := [1, 2], _size := 2, _capacity := 2 } (by decide)).2.1 3,
   ((@RepInv_invariant Nat _).2.2.1
      { _data := [1, 2], _size := 2, _capacity := 2 } (by decide)).2.2.1 1 9 (by decide)⟩

/-! ## Assignment -/

/-- C17 (the code at the failing input): with `B` built by
`SimpleVector(Reserve(1))` (size 0, capacity 1, one slot; the invariant holds
for `A` and `B`), the copy assignment `A = B` returns `A` with size 0,
capacity 1 and a buffer of no slot: the capacity exceeds the number of slots,
and the following `A.PushBack(7)`, for which `size < capacity`, assigns
`_data[0]` outside the buffer.  The copy constructor on the same `B` returns a
buffer of one slot. -/
theorem copyAssign_capacity_exceeds_buffer :
    RepInv (empty : SimpleVector Nat) ∧
    RepInv (ofReserve (ReserveProxy 1) : SimpleVector Nat) ∧
    copyAssign (empty : SimpleVector Nat) (ofReserve (ReserveProxy 1))
      = .returned { _data := [], _size := 0, _capacity := 1 } () ∧
    ¬ GetCapacity ({ _data := [], _size := 0, _capacity := 1 } : SimpleVector Nat)
        ≤ ({ _data := [], _size := 0, _capacity := 1 } : SimpleVector Nat)._data.length ∧
    PushBack ({ _data := [], _size := 0, _capacity := 1 } : SimpleVector Nat) 7 = .undefined ∧
    copyCtor (ofReserve (ReserveProxy 1) : SimpleVector Nat)
      = .returned ({ _data := [0], _size := 0, _capacity := 1 },
          { _data := [0], _size := 0, _capacity := 1 }) () := by
  decide

/-- C18 (the code at the failing input): with `A` empty and `B` the container
of the list 1, 2 (the invariant holds for both), the move assignment
`A = std::move(B)` gives `A` the buffer, size and capacity of `B`, and leaves
`B` with size 2, capacity 2 and the former buffer of `A`, which has no slot:
the capacity of `B` exceeds the number of its slots and `B.At(0)`, with
`0 < size`, reads outside the buffer.  The move constructor on the same `B`
leaves it with size 0 and capacity 0. -/
theorem moveAssign_source_exceeds_buffer :
    RepInv (empty : SimpleVector Nat) ∧
    RepInv ({ _data := [1, 2], _size := 2, _capacity := 2 } : SimpleVector Nat) ∧
    moveAssign (empty : SimpleVector Nat) { _data := [1, 2], _size := 2, _capacity := 2 }
      = ({ _data := [1, 2], _size := 2, _capacity := 2 },
         { _data := [], _size := 2, _capacity := 2 }) ∧
    ¬ GetCapacity ({ _data := [], _size := 2, _capacity := 2 } : SimpleVector Nat)
        ≤ ({ _data := [], _size := 2, _capacity := 2 } : SimpleVector Nat)._data.length ∧
    At ({ _data := [], _size := 2, _capacity := 2 } : SimpleVector Nat) 0 = .undefined ∧
    (moveCtor ({ _data := [1, 2], _size := 2, _capacity := 2 } : SimpleVector Nat)).2
      = { _data := [], _size := 0, _capacity := 0 } := by
  decide

/-! ## The overload of Insert that takes a const reference -/

/-- C19 (the code at every input): whatever the container, the position and
the value, and however much fuel is given, the overload
`Insert(pos, const Type&)` has not returned when the fuel runs out: it calls
itself with the same arguments and never reaches the overload that inserts.
(The rvalue overload returns on the same input, see the second part.) -/
theorem InsertConstRef_never_returns {α : Type} (S : SimpleVector α) (k : Nat) (v : α) :
    (∀ fuel, InsertConstRef S k v fuel = none) ∧
    (∀ fuel, InsertConstRef (empty : SimpleVector Nat) 0 7 fuel = none) ∧
    Insert (empty : SimpleVector Nat) 0 7
      = .returned { _data := [7], _size := 1, _capacity := 1 } 0 := by
  refine ⟨?_, ?_, by decide⟩
  · intro fuel
    induction fuel with
    | zero => rfl
    | succ n ih => exact ih
  · intro fuel
    induction fuel with
    | zero => rfl
    | succ n ih => exact ih

/-! ## Insert followed by Erase -/

/-- C20: for every container that satisfies the representation invariant,
every `k <= size` and every value `v`, `Insert(begin() + k, v)` returns the
iterator at offset `k`, `Erase` at that iterator returns, and the result has
the live sequence and the size of the original container, compares equal to
it with `operator==` (for a reflexive element equality), and has a capacity
that is not smaller. -/
theorem Insert_Erase_roundtrip {α : Type} [Inhabited α] [BEq α] [ReflBEq α]
    (S : SimpleVector α) (k : Nat) (v : α) (hinv : RepInv S) (hk : k ≤ S._size) :
    ∃ S1 S2, Insert S k v = .returned S1 k ∧ Erase S1 k = .returned S2 k ∧
      live S2 = live S ∧
      GetSize S2 = GetSize S ∧
      opEq S2 S = some true ∧
      GetCapacity S ≤ GetCapacity S2 := by
  have h0 := hinv.1
  have h2 := hinv.2
  obtain ⟨S1, h1, hs1, hc1, hl1, hg1⟩ := Insert_returns S k v h0 (by omega) hk
  have hfit : S1._size ≤ S1._data.length := by
    have : S1._size ≤ S1._capacity := by
      rw [hs1, hc1]
      split
      · omega
      · split <;> omega
    omega
  obtain ⟨S2, he, hs2, hc2, hl2, hg2⟩ := Erase_returns S1 k (by omega) hfit
  have hsize : S2._size = S._size := by omega
  have hget : ∀ j, j < S._size → S2._data[j]? = S._data[j]? := by
    intro j hj
    rw [hg2 j]
    by_cases hjk : j < k
    · rw [if_neg (by omega), hg1 j (by omega), if_pos hjk]
    · rw [if_pos (by omega), hg1 (j + 1) (by omega), if_neg (by omega), if_neg (by omega)]
      rfl
  refine ⟨S1, S2, h1, he, ?_, hsize, ?_, ?_⟩
  · simp only [live, hsize]
    exact take_eq_take_of_getElem? S2._data S._data S._size hget
  · simp only [opEq, GetSize, hsize, ne_eq, not_true_eq_false, if_false]
    exact equalN_of_getElem? S2._data S._data S._size 0 (by omega)
      (fun j _ hj => hget j (by omega))
  · simp only [GetCapacity, hc2, hc1]
    split
    · exact Nat.le_refl _
    · split <;> omega

/-- Witness of `Insert_Erase_roundtrip`: the container of 1, 2 (size 2,
capacity 2, two slots) and position 1. -/
theorem Insert_Erase_roundtrip_witness :
    (RepInv ({ _data := [1, 2], _size := 2, _capacity := 2 } : SimpleVector Nat) ∧ 1 ≤ 2) ∧
    ∃ S1 S2, Insert ({ _data := [1, 2], _size := 2, _capacity := 2 } : SimpleVector Nat) 1 9
        = .returned S1 1 ∧ Erase S1 1 = .returned S2 1 ∧
      live S2 = live ({ _data := [1, 2], _size := 2, _capacity := 2 } : SimpleVector Nat) ∧
      GetSize S2 = GetSize ({ _data := [1, 2], _size := 2, _capacity := 2 } : SimpleVector Nat) ∧
      opEq S2 ({ _data := [1, 2], _size := 2, _capacity := 2 } : SimpleVector Nat) = some true ∧
      GetCapacity ({ _data := [1, 2], _size := 2, _capacity := 2 } : SimpleVector Nat)
        ≤ GetCapacity S2 :=
  ⟨by decide,
   Insert_Erase_roundtrip ({ _data := [1, 2], _size := 2, _capacity := 2 } : SimpleVector Nat) 1 9
     (by decide) (by decide)⟩

/-! ## Allocation failure -/

/-- When every allocation is granted, `ReserveAlloc` is `Reserve`. -/
theorem ReserveAlloc_granted {α : Type} [Inhabited α] (S : SimpleVector α) (n : Nat) :
    ReserveAlloc (fun _ => true) S n = Reserve S n := by
  simp [ReserveAlloc, Reserve, tryNewArrayPtr]

/-- When every allocation is granted, `PushBackAlloc` is `PushBack`. -/
theorem PushBackAlloc_granted {α : Type} [Inhabited α] (S : SimpleVector α) (x : α) :
    PushBackAlloc (fun _ => true) S x = PushBack S x := by
  simp [PushBackAlloc, PushBack, tryNewArrayPtr]

/-- When every allocation is granted, `InsertAlloc` is `Insert`. -/
theorem InsertAlloc_granted {α : Type} [Inhabited α] (S : SimpleVector α) (k : Nat) (v : α) :
    InsertAlloc (fun _ => true) S k v = Insert S k v := by
  simp [InsertAlloc, Insert, tryNewArrayPtr, PushBackAlloc_granted]

/-- When every allocation is granted, `ResizeAlloc` is `Resize`. -/
theorem ResizeAlloc_granted {α : Type} [Inhabited α] (S : SimpleVector α) (n : Nat) :
    ResizeAlloc (fun _ => true) S n = Resize S n := by
  simp [ResizeAlloc, Resize, tryNewArrayPtr]

/-- Where the allocation fails, `Reserve(n > capacity)`, `Resize(n > capacity)`
and `PushBack` at a positive capacity throw `std::bad_alloc` and leave the
container as it was; `PushBack` at capacity 0 and `Insert` at capacity throw
with `_capacity` already assigned. -/
theorem alloc_failure_state {α : Type} [Inhabited α] (avail : Nat → Bool) (S : SimpleVector α) :
    (∀ n, S._capacity < n → avail n = false → ReserveAlloc avail S n = .threw S .bad_alloc) ∧
    (∀ n, S._size ≤ n → S._capacity < n → avail n = false →
      ResizeAlloc avail S n = .threw S .bad_alloc) ∧
    (∀ x, S._size = S._capacity → 0 < S._capacity → avail (S._capacity * 2) = false →
      PushBackAlloc avail S x = .threw S .bad_alloc) ∧
    (∀ x, S._size = S._capacity → S._capacity = 0 → avail 8 = false →
      PushBackAlloc avail S x = .threw { S with _capacity := 4 } .bad_alloc) ∧
    (∀ k v, S._size = S._capacity →
      avail (if S._capacity = 0 then 1 else S._capacity * 2) = false →
      InsertAlloc avail S k v
        = .threw { S with _capacity := if S._capacity = 0 then 1 else S._capacity * 2 }
            .bad_alloc) := by
  refine ⟨?_, ?_, ?_, ?_, ?_⟩
  · intro n hn ha
    simp [ReserveAlloc, hn, tryNewArrayPtr, ha]
  · intro n hs hn ha
    have h1 : ¬ n < S._size := by omega
    have h2 : ¬ n ≤ S._capacity := by omega
    simp [ResizeAlloc, h1, h2, tryNewArrayPtr, ha]
  · intro x heq hpos ha
    have h1 : ¬ S._size < S._capacity := by omega
    have h2 : ¬ S._capacity = 0 := by omega
    simp only [PushBackAlloc, if_neg h1, if_pos heq, if_neg h2, tryNewArrayPtr, ha]
    rfl
  · intro x heq h0 ha
    have h1 : ¬ S._size < S._capacity := by omega
    simp only [PushBackAlloc, if_neg h1, if_pos heq, if_pos h0, tryNewArrayPtr]
    simp [ha]
  · intro k v heq ha
    have h1 : ¬ S._size < S._capacity := by omega
    simp only [InsertAlloc, if_neg h1, if_pos heq, tryNewArrayPtr, ha]
    rfl

/-- C14 (the code at the failing inputs): with the allocation failing,
`Insert(begin(), 9)` on the container of 1, 2 (size 2 == capacity 2) throws
`std::bad_alloc` and leaves capacity 4 with the old buffer of two slots, and
`PushBack(1)` on the empty container throws and leaves capacity 4 with a buffer
of no slot: the capacity is not what it was before the call.  On the first
container `Reserve(5)`, `Resize(5)` and `PushBack(9)` throw and leave it
untouched. -/
theorem alloc_failure_changes_capacity :
    InsertAlloc (fun _ => false)
        ({ _data := [1, 2], _size := 2, _capacity := 2 } : SimpleVector Nat) 0 9
      = .threw { _data := [1, 2], _size := 2, _capacity := 4 } .bad_alloc ∧
    PushBackAlloc (fun _ => false) (empty : SimpleVector Nat) 1
      = .threw { _data := [], _size := 0, _capacity := 4 } .bad_alloc ∧
    ReserveAlloc (fun _ => false)
        ({ _data := [1, 2], _size := 2, _capacity := 2 } : SimpleVector Nat) 5
      = .threw { _data := [1, 2], _size := 2, _capacity := 2 } .bad_alloc ∧
    ResizeAlloc (fun _ => false)
        ({ _data := [1, 2], _size := 2, _capacity := 2 } : SimpleVector Nat) 5
      = .threw { _data := [1, 2], _size := 2, _capacity := 2 } .bad_alloc ∧
    PushBackAlloc (fun _ => false)
        ({ _data := [1, 2], _size := 2, _capacity := 2 } : SimpleVector Nat) 9
      = .threw { _data := [1, 2], _size := 2, _capacity := 2 } .bad_alloc := by
  decide

/-! ## operator== and operator!= -/

theorem beq_false_of_length_ne {α : Type} [BEq α] :
    ∀ (l1 l2 : List α), l1.length ≠ l2.length → (l1 == l2) = false
  | [], [], h => absurd rfl h
  | [], _ :: _, _ => rfl
  | _ :: _, [], _ => rfl
  | a :: as, b :: bs, h => by
    have ih := beq_false_of_length_ne as bs (by simpa using h)
    show (a == b && as == bs) = false
    rw [ih, Bool.and_false]

theorem take_drop_succ {α : Type} (a : List α) (i n : Nat) (hi : i < a.length) :
    (a.drop i).take (n + 1) = a.get ⟨i, hi⟩ :: (a.drop (i + 1)).take n := by
  rw [List.drop_eq_getElem_cons hi, List.take_succ_cons]
  rfl

/-- Two lists compare equal with `==` exactly when they have the same length
and their elements compare equal pairwise. -/
theorem beq_iff_getElem? {α : Type} [BEq α] :
    ∀ (l1 l2 : List α), (l1 == l2) = true ↔
      l1.length = l2.length ∧
      ∀ (i : Nat) (x y : α), l1[i]? = some x → l2[i]? = some y → (x == y) = true
  | [], [] => by simp
  | [], _ :: _ => by
    constructor
    · intro h; exact absurd h Bool.false_ne_true
    · intro h; simp at h
  | _ :: _, [] => by
    constructor
    · intro h; exact absurd h Bool.false_ne_true
    · intro h; simp at h
  | a :: as, b :: bs => by
    have ih := beq_iff_getElem? as bs
    show (a == b && as == bs) = true ↔ _
    rw [Bool.and_eq_true, ih]
    constructor
    · rintro ⟨hab, hl, hall⟩
      refine ⟨by simp [hl], ?_⟩
      intro i x y hx hy
      cases i with
      | zero =>
        simp only [List.getElem?_cons_zero, Option.some.injEq] at hx hy
        rw [← hx, ← hy]; exact hab
      | succ i =>
        simp only [List.getElem?_cons_succ] at hx hy
        exact hall i x y hx hy
    · rintro ⟨hl, hall⟩
      refine ⟨hall 0 a b List.getElem?_cons_zero List.getElem?_cons_zero,
        by simpa using hl, ?_⟩
      intro i x y hx hy
      exact hall (i + 1) x y (by simpa using hx) (by simpa using hy)

/-- Inside both buffers the loop of `std::equal` computes `==` of the two
ranges as lists. -/
theorem equalN_eq_beq {α : Type} [BEq α] (a b : ArrayPtr α) (n : Nat) :
    ∀ i, i + n ≤ a.length → i + n ≤ b.length →
      equalN a b n i = some ((a.drop i).take n == (b.drop i).take n) := by
  induction n with
  | zero =>
    intro i _ _
    rfl
  | succ n ih =>
    intro i ha hb
    have hia : i < a.length := by omega
    have hib : i < b.length := by omega
    rw [take_drop_succ a i n hia, take_drop_succ b i n hib]
    simp only [equalN, bufRead_eq_some a i hia, bufRead_eq_some b i hib]
    rw [ih (i + 1) (by omega) (by omega)]
    show _ = some (a.get ⟨i, hia⟩ == b.get ⟨i, hib⟩ &&
      ((a.drop (i + 1)).take n == (b.drop (i + 1)).take n))
    cases a.get ⟨i, hia⟩ == b.get ⟨i, hib⟩
    · rfl
    · rfl

theorem length_live {α : Type} (A : SimpleVector α) (hA : A._size ≤ A._data.length) :
    (live A).length = A._size := by
  simp only [live, List.length_take]
  omega

/-- For containers whose live elements lie inside their buffers `operator==`
is `==` of the live sequences. -/
theorem opEq_eq_beq {α : Type} [BEq α] (A B : SimpleVector α)
    (hA : A._size ≤ A._data.length) (hB : B._size ≤ B._data.length) :
    opEq A B = some (live A == live B) := by
  by_cases hs : A._size = B._size
  · have h := equalN_eq_beq A._data B._data A._size 0 (by omega) (by omega)
    simp only [List.drop_zero] at h
    simp only [opEq, GetSize, hs, ne_eq, not_true_eq_false, if_false, live]
    rw [← hs]
    exact h
  · have hne : (live A).length ≠ (live B).length := by
      rw [length_live A hA, length_live B hB]
      exact hs
    simp only [opEq, GetSize, ne_eq, hs, not_false_eq_true, if_true,
      beq_false_of_length_ne _ _ hne]

theorem getElem?_live {α : Type} (A : SimpleVector α) (i : Nat) (hi : i < A._size) :
    (live A)[i]? = A._data[i]? := by
  simp only [live, List.getElem?_take, if_pos hi]

/-- C12 (amended): for all containers `A` and `B` whose live elements lie
inside their buffers (size at most the number of slots), `A == B` is defined,
and it holds if and only if the sizes are equal and `A[i] == B[i]` for every
`i < size`; containers with the same sizes and live sequences give the same
result, whatever their capacities and their slots beyond the size; for a
reflexive element equality `A == A` holds, for a symmetric one `A == B` and
`B == A` agree; and `A != B` is the negation of `A == B`. -/
theorem opEq_spec {α : Type} [BEq α] (A B : SimpleVector α)
    (hA : A._size ≤ A._data.length) (hB : B._size ≤ B._data.length) :
    (∃ c, opEq A B = some c ∧
      (c = true ↔ GetSize A = GetSize B ∧
        ∀ i, i < GetSize A →
          ∃ x y, index A i = .returned A x ∧ index B i = .returned B y ∧ (x == y) = true)) ∧
    (∀ A1 B1 : SimpleVector α,
      GetSize A1 = GetSize A → live A1 = live A →
      GetSize B1 = GetSize B → live B1 = live B →
      opEq A1 B1 = opEq A B) ∧
    ((∀ x : α, (x == x) = true) → opEq A A = some true) ∧
    ((∀ x y : α, (x == y) = (y == x)) → opEq A B = opEq B A) ∧
    (∃ c, opEq A B = some c ∧ opNe A B = some (!c)) := by
  have hAB := opEq_eq_beq A B hA hB
  refine ⟨⟨_, hAB, ?_⟩, ?_, ?_, ?_, ⟨_, hAB, by simp [opNe, hAB]⟩⟩
  · rw [beq_iff_getElem?, length_live A hA, length_live B hB]
    simp only [GetSize]
    constructor
    · rintro ⟨hs, hall⟩
      refine ⟨hs, ?_⟩
      intro i hi
      have hia : i < A._data.length := by omega
      have hib : i < B._data.length := by omega
      refine ⟨A._data.get ⟨i, hia⟩, B._data.get ⟨i, hib⟩, ?_, ?_, ?_⟩
      · simp only [index, bufRead_eq_some _ _ hia]
      · simp only [index, bufRead_eq_some _ _ hib]
      · apply hall i
        · rw [getElem?_live A i hi]
          exact List.getElem?_eq_getElem hia
        · rw [getElem?_live B i (by omega)]
          exact List.getElem?_eq_getElem hib
    · rintro ⟨hs, hall⟩
      refine ⟨hs, ?_⟩
      intro i x y hx hy
      have hi : i < A._size := by
        by_contra hge
        simp only [live, List.getElem?_take, if_neg hge] at hx
        exact absurd hx (by simp)
      obtain ⟨x1, y1, hx1, hy1, hxy⟩ := hall i hi
      rw [getElem?_live A i hi] at hx
      rw [getElem?_live B i (by omega)] at hy
      simp only [index, bufRead, hx, hy, Outcome.returned.injEq, true_and] at hx1 hy1
      rw [hx1, hy1]
      exact hxy
  · intro A1 B1 hsA hlA hsB hlB
    simp only [GetSize] at hsA hsB
    have hA1 : A1._size ≤ A1._data.length := by
      have h1 : (live A1).length = A._size := by rw [hlA, length_live A hA]
      simp only [live, List.length_take] at h1
      omega
    have hB1 : B1._size ≤ B1._data.length := by
      have h1 : (live B1).length = B._size := by rw [hlB, length_live B hB]
      simp only [live, List.length_take] at h1
      omega
    rw [opEq_eq_beq A1 B1 hA1 hB1, hAB, hlA, hlB]
  · intro hrefl
    rw [opEq_eq_beq A A hA hA]
    congr 1
    rw [beq_iff_getElem?]
    refine ⟨rfl, ?_⟩
    intro i x y hx hy
    rw [hx] at hy
    simp only [Option.some.injEq] at hy
    rw [← hy]
    exact hrefl x
  · intro hsymm
    rw [hAB, opEq_eq_beq B A hB hA]
    congr 1
    rw [Bool.eq_iff_iff, beq_iff_getElem?, beq_iff_getElem?]
    constructor
    · rintro ⟨hl, hall⟩
      exact ⟨hl.symm, fun i x y hx hy => by rw [hsymm]; exact hall i y x hy hx⟩
    · rintro ⟨hl, hall⟩
      exact ⟨hl.symm, fun i x y hx hy => by rw [hsymm]; exact hall i y x hy hx⟩

/-- Witness of `opEq_spec`: two containers with the live sequence 1, 2 and
different capacities and slots beyond the size. -/
theorem opEq_spec_witness :
    (2 ≤ [1, 2, 7].length ∧ 2 ≤ [1, 2].length) ∧
    opEq ({ _data := [1, 2, 7], _size := 2, _capacity := 3 } : SimpleVector Nat)
        { _data := [1, 2, 7], _size := 2, _capacity := 3 } = some true ∧
    opEq ({ _data := [1, 2, 7], _size := 2, _capacity := 3 } : SimpleVector Nat)
        { _data := [1, 2], _size := 2, _capacity := 2 }
      = opEq ({ _data := [1, 2], _size := 2, _capacity := 2 } : SimpleVector Nat)
        { _data := [1, 2, 7], _size := 2, _capacity := 3 } :=
  ⟨by decide,
   (opEq_spec ({ _data := [1, 2, 7], _size := 2, _capacity := 3 } : SimpleVector Nat)
      { _data := [1, 2], _size := 2, _capacity := 2 } (by decide) (by decide)).2.2.1
      (fun x => beq_self_eq_true x),
   (opEq_spec ({ _data := [1, 2, 7], _size := 2, _capacity := 3 } : SimpleVector Nat)
      { _data := [1, 2], _size := 2, _capacity := 2 } (by decide) (by decide)).2.2.2.1
      (fun _ _ => Bool.beq_comm)⟩

/-- C12 (as stated) fails: move assignment `A = std::move(B)` into an empty
`A` leaves `B` with size 2 and a buffer of no slot; `B == B` reads outside the
buffer, so it has no defined result and reflexivity is lost, although the
element equality of `Nat` is reflexive. -/
theorem opEq_outside_buffer :
    (moveAssign (empty : SimpleVector Nat) { _data := [1, 2], _size := 2, _capacity := 2 }).2
      = { _data := [], _size := 2, _capacity := 2 } ∧
    opEq ({ _data := [], _size := 2, _capacity := 2 } : SimpleVector Nat)
      { _data := [], _size := 2, _capacity := 2 } = none ∧
    opEq ({ _data := [], _size := 2, _capacity := 2 } : SimpleVector Nat)
      { _data := [], _size := 2, _capacity := 2 } ≠ some true := by
  decide

/-! ## operator< and the operators derived from it -/

/-- Inside both buffers the loop of `std::lexicographical_compare` decides the
lexicographic order of the two ranges as lists. -/
theorem lexCompareN_eq_decide {α : Type} [LinearOrder α] (a b : ArrayPtr α) (n1 : Nat) :
    ∀ (n2 i : Nat), i + n1 ≤ a.length → i + n2 ≤ b.length →
      lexCompareN a b n1 n2 i
        = some (decide (List.Lex (fun x y => x < y) ((a.drop i).take n1) ((b.drop i).take n2))) := by
  induction n1 with
  | zero =>
    intro n2 i _ hb
    cases n2 with
    | zero =>
      have hno : ¬ List.Lex (fun (x y : α) => x < y) [] [] := List.Lex.not_nil_right _ _
      simp only [lexCompareN, List.take_zero, ne_eq, not_true_eq_false, decide_False,
        decide_eq_false hno]
    | succ n2 =>
      have hib : i < b.length := by omega
      rw [take_drop_succ b i n2 hib]
      have hyes : List.Lex (fun (x y : α) => x < y) []
          (b.get ⟨i, hib⟩ :: (b.drop (i + 1)).take n2) := List.Lex.nil
      simp only [lexCompareN, List.take_zero, ne_eq, Nat.add_one_ne_zero, not_false_eq_true,
        decide_True, decide_eq_true hyes]
  | succ n1 ih =>
    intro n2 i ha hb
    have hia : i < a.length := by omega
    cases n2 with
    | zero =>
      have hno : ¬ List.Lex (fun (x y : α) => x < y) ((a.drop i).take (n1 + 1)) [] :=
        List.Lex.not_nil_right _ _
      simp only [lexCompareN, List.take_zero, decide_eq_false hno]
    | succ n2 =>
      have hib : i < b.length := by omega
      rw [take_drop_succ a i n1 hia, take_drop_succ b i n2 hib]
      simp only [lexCompareN, bufRead_eq_some a i hia, bufRead_eq_some b i hib]
      rw [ih n2 (i + 1) (by omega) (by omega)]
      generalize a.get ⟨i, hia⟩ = x
      generalize b.get ⟨i, hib⟩ = y
      generalize (a.drop (i + 1)).take n1 = xs
      generalize (b.drop (i + 1)).take n2 = ys
      by_cases hlt : x < y
      · rw [if_pos hlt, decide_eq_true (List.Lex.rel hlt)]
      · rw [if_neg hlt]
        by_cases hgt : y < x
        · have hno : ¬ List.Lex (fun (x y : α) => x < y) (x :: xs) (y :: ys) := by
            intro hlex
            cases hlex with
            | cons h => exact lt_irrefl _ hgt
            | rel h => exact hlt h
          rw [if_pos hgt, decide_eq_false hno]
        · have heq : x = y := le_antisymm (not_lt.mp hgt) (not_lt.mp hlt)
          rw [if_neg hgt, heq]
          congr 1
          rw [Bool.eq_iff_iff, decide_eq_true_iff, decide_eq_true_iff, List.Lex.cons_iff]

/-- For containers whose live elements lie inside their buffers `operator<`
decides the lexicographic order of the live sequences. -/
theorem opLt_eq_decide {α : Type} [LinearOrder α] (A B : SimpleVector α)
    (hA : A._size ≤ A._data.length) (hB : B._size ≤ B._data.length) :
    opLt A B = some (decide (List.Lex (fun x y => x < y) (live A) (live B))) := by
  have h := lexCompareN_eq_decide A._data B._data A._size B._size 0 (by omega) (by omega)
  simp only [List.drop_zero] at h
  exact h

/-- For containers whose live elements lie inside their buffers, and an element
type with decidable equality, `operator==` decides equality of the live
sequences. -/
theorem opEq_eq_decide {α : Type} [DecidableEq α] (A B : SimpleVector α)
    (hA : A._size ≤ A._data.length) (hB : B._size ≤ B._data.length) :
    opEq A B = some (decide (live A = live B)) := by
  rw [opEq_eq_beq A B hA hB]
  congr 1
  rw [Bool.eq_iff_iff, beq_iff_eq, decide_eq_true_iff]

/-- A proper initial segment is smaller in the lexicographic order. -/
theorem lex_append_of_ne_nil {α : Type} (r : α → α → Prop) (t : List α) (ht : t ≠ []) :
    ∀ l : List α, List.Lex r l (l ++ t)
  | [] => by
    cases t with
    | nil => exact absurd rfl ht
    | cons y ys => exact List.Lex.nil
  | _ :: xs => List.Lex.cons (lex_append_of_ne_nil r t ht xs)

/-- C13 (amended): for an element type with a linear order and containers whose
live elements lie inside their buffers (size at most the number of slots),
`A < B` is defined and holds exactly when the live sequence of `A` is below
that of `B` in the lexicographic order (so a proper initial segment is
smaller); `<` is irreflexive and transitive; exactly one of `A < B`, `A == B`,
`A > B` holds; `A > B` is `B < A`, `A <= B` is the negation of `B < A` and
`A >= B` is the negation of `A < B`. -/
theorem opLt_spec {α : Type} [LinearOrder α] (A B C : SimpleVector α)
    (hA : A._size ≤ A._data.length) (hB : B._size ≤ B._data.length)
    (hC : C._size ≤ C._data.length) :
    (∃ c, opLt A B = some c ∧
      (c = true ↔ List.Lex (fun x y => x < y) (live A) (live B))) ∧
    (∀ t, t ≠ [] → live B = live A ++ t → opLt A B = some true) ∧
    opLt A A = some false ∧
    (opLt A B = some true → opLt B C = some true → opLt A C = some true) ∧
    ((opLt A B = some true ∧ opEq A B = some false ∧ opGt A B = some false) ∨
     (opLt A B = some false ∧ opEq A B = some true ∧ opGt A B = some false) ∨
     (opLt A B = some false ∧ opEq A B = some false ∧ opGt A B = some true)) ∧
    opGt A B = opLt B A ∧
    opLe A B = (opLt B A).map not ∧
    opGe A B = (opLt A B).map not := by
  have inst : IsStrictTotalOrder (List α) (List.Lex (fun (x y : α) => x < y)) := inferInstance
  have hirr : ∀ l : List α, ¬ List.Lex (fun (x y : α) => x < y) l l := fun l => inst.irrefl l
  have htr : ∀ l1 l2 l3 : List α, List.Lex (fun (x y : α) => x < y) l1 l2 →
      List.Lex (fun (x y : α) => x < y) l2 l3 → List.Lex (fun (x y : α) => x < y) l1 l3 :=
    fun l1 l2 l3 => inst.trans l1 l2 l3
  have htri : ∀ l1 l2 : List α, List.Lex (fun (x y : α) => x < y) l1 l2 ∨ l1 = l2 ∨
      List.Lex (fun (x y : α) => x < y) l2 l1 := fun l1 l2 => inst.trichotomous l1 l2
  have hab := opLt_eq_decide A B hA hB
  have hba := opLt_eq_decide B A hB hA
  have hbc := opLt_eq_decide B C hB hC
  have hac := opLt_eq_decide A C hA hC
  have haa := opLt_eq_decide A A hA hA
  have heq := opEq_eq_decide A B hA hB
  have hgt : opGt A B = some (decide (List.Lex (fun (x y : α) => x < y) (live B) (live A))) := by
    simp only [opGt, opNe, hab, heq]
    by_cases h1 : List.Lex (fun (x y : α) => x < y) (live A) (live B)
    · have h2 : ¬ List.Lex (fun (x y : α) => x < y) (live B) (live A) :=
        fun h => hirr _ (htr _ _ _ h1 h)
      simp only [decide_eq_true h1, decide_eq_false h2]
    · by_cases h3 : live A = live B
      · have h2 : ¬ List.Lex (fun (x y : α) => x < y) (live B) (live A) := by
          rw [h3]; exact hirr _
        simp only [decide_eq_false h1, decide_eq_true h3, decide_eq_false h2, Option.map_some',
          Bool.not_true]
      · have h2 : List.Lex (fun (x y : α) => x < y) (live B) (live A) := by
          rcases htri (live A) (live B) with h | h | h
          · exact absurd h h1
          · exact absurd h h3
          · exact h
        simp only [decide_eq_false h1, decide_eq_false h3, decide_eq_true h2, Option.map_some',
          Bool.not_false]
  refine ⟨⟨_, hab, decide_eq_true_iff⟩, ?_, ?_, ?_, ?_, ?_, ?_, ?_⟩
  · intro t ht hB2
    rw [hab, hB2, decide_eq_true (lex_append_of_ne_nil _ t ht (live A))]
  · rw [haa, decide_eq_false (hirr _)]
  · intro h1 h2
    rw [hab] at h1
    rw [hbc] at h2
    simp only [Option.some.injEq, decide_eq_true_eq] at h1 h2
    rw [hac, decide_eq_true (htr _ _ _ h1 h2)]
  · rw [hab, heq, hgt]
    by_cases h1 : List.Lex (fun (x y : α) => x < y) (live A) (live B)
    · left
      have h2 : ¬ List.Lex (fun (x y : α) => x < y) (live B) (live A) :=
        fun h => hirr _ (htr _ _ _ h1 h)
      have h3 : ¬ live A = live B := fun h => hirr (live B) (h ▸ h1)
      simp only [decide_eq_true h1, decide_eq_false h2, decide_eq_false h3, and_self]
    · by_cases h3 : live A = live B
      · right; left
        have h2 : ¬ List.Lex (fun (x y : α) => x < y) (live B) (live A) := by
          rw [h3]; exact hirr _
        simp only [decide_eq_false h1, decide_eq_false h2, decide_eq_true h3, and_self]
      · right; right
        have h2 : List.Lex (fun (x y : α) => x < y) (live B) (live A) := by
          rcases htri (live A) (live B) with h | h | h
          · exact absurd h h1
          · exact absurd h h3
          · exact h
        simp only [decide_eq_false h1, decide_eq_true h2, decide_eq_false h3, and_self]
  · rw [hgt, hba]
  · simp only [opLe, heq, hab, hba, Option.map_some']
    by_cases h3 : live A = live B
    · have h2 : ¬ List.Lex (fun (x y : α) => x < y) (live B) (live A) := by
        rw [h3]; exact hirr _
      simp only [decide_eq_true h3, decide_eq_false h2, Bool.not_false]
    · by_cases h1 : List.Lex (fun (x y : α) => x < y) (live A) (live B)
      · have h2 : ¬ List.Lex (fun (x y : α) => x < y) (live B) (live A) :=
          fun h => hirr _ (htr _ _ _ h1 h)
        simp only [decide_eq_false h3, decide_eq_true h1, decide_eq_false h2, Bool.not_false]
      · have h2 : List.Lex (fun (x y : α) => x < y) (live B) (live A) := by
          rcases htri (live A) (live B) with h | h | h
          · exact absurd h h1
          · exact absurd h h3
          · exact h
        simp only [decide_eq_false h3, decide_eq_false h1, decide_eq_true h2, Bool.not_true]
  · simp only [opGe, heq, hgt, hab, Option.map_some']
    by_cases h3 : live A = live B
    · have h1 : ¬ List.Lex (fun (x y : α) => x < y) (live A) (live B) := by
        rw [h3]; exact hirr _
      simp only [decide_eq_true h3, decide_eq_false h1, Bool.not_false]
    · by_cases h1 : List.Lex (fun (x y : α) => x < y) (live A) (live B)
      · have h2 : ¬ List.Lex (fun (x y : α) => x < y) (live B) (live A) :=
          fun h => hirr _ (htr _ _ _ h1 h)
        simp only [decide_eq_false h3, decide_eq_true h1, decide_eq_false h2, Bool.not_true]
      · have h2 : List.Lex (fun (x y : α) => x < y) (live B) (live A) := by
          rcases htri (live A) (live B) with h | h | h
          · exact absurd h h1
          · exact absurd h h3
          · exact h
        simp only [decide_eq_false h3, decide_eq_false h1, decide_eq_true h2, Bool.not_false]

/-- Witness of `opLt_spec`: live sequences 1, 2 (with a stale slot 9), 1, 3 and
2; the first is below the second, the second below the third. -/
theorem opLt_spec_witness :
    (2 ≤ [1, 2, 9].length ∧ 2 ≤ [1, 3].length ∧ 1 ≤ [2].length) ∧
    opLt ({ _data := [1, 2, 9], _size := 2, _capacity := 3 } : SimpleVector Nat)
      { _data := [2], _size := 1, _capacity := 1 } = some true ∧
    opGt ({ _data := [1, 2, 9], _size := 2, _capacity := 3 } : SimpleVector Nat)
        { _data := [1, 3], _size := 2, _capacity := 2 }
      = opLt ({ _data := [1, 3], _size := 2, _capacity := 2 } : SimpleVector Nat)
        { _data := [1, 2, 9], _size := 2, _capacity := 3 } :=
  ⟨by decide,
   (opLt_spec ({ _data := [1, 2, 9], _size := 2, _capacity := 3 } : SimpleVector Nat)
      { _data := [1, 3], _size := 2, _capacity := 2 } { _data := [2], _size := 1, _capacity := 1 }
      (by decide) (by decide) (by decide)).2.2.2.1 (by decide) (by decide),
   (opLt_spec ({ _data := [1, 2, 9], _size := 2, _capacity := 3 } : SimpleVector Nat)
      { _data := [1, 3], _size := 2, _capacity := 2 } { _data := [2], _size := 1, _capacity := 1 }
      (by decide) (by decide) (by decide)).2.2.2.2.2.1⟩

/-- C13 (as stated) fails: move assignment `A = std::move(B)` into an empty
`A` leaves `B` with size 2 and a buffer of no slot; `B < B`, `B == B` and
`B > B` all read outside the buffer, so none of the three holds and `B < B` is
not known to be false. -/
theorem opLt_outside_buffer :
    (moveAssign (empty : SimpleVector Nat) { _data := [1, 2], _size := 2, _capacity := 2 }).2
      = { _data := [], _size := 2, _capacity := 2 } ∧
    opLt ({ _data := [], _size := 2, _capacity := 2 } : SimpleVector Nat)
      { _data := [], _size := 2, _capacity := 2 } = none ∧
    opEq ({ _data := [], _size := 2, _capacity := 2 } : SimpleVector Nat)
      { _data := [], _size := 2, _capacity := 2 } = none ∧
    opGt ({ _data := [], _size := 2, _capacity := 2 } : SimpleVector Nat)
      { _data := [], _size := 2, _capacity := 2 } = none := by
  decide

/-! ## The representation invariant and allocation failure -/

/-- C16 (the code at the failing inputs): the invariant holds for the
default-constructed container and for the container of the list 1, 2, and both
calls are within their preconditions; yet when the allocation fails,
`PushBack(1)` on the first leaves it, at the throw of `std::bad_alloc`, with
size 0, capacity 4 and a buffer of no slot, and `Insert(begin(), 9)` on the
second leaves it with size 2, capacity 4 and its buffer of two slots.  Neither
state satisfies the invariant (the capacity is not the number of slots), and a
following `PushBack`, for which `size < capacity`, assigns outside the buffer.
With the same failing allocation `Reserve(5)` and `Resize(5)` throw and leave
the second container, and its invariant, as they were. -/
theorem RepInv_broken_by_alloc_failure :
    RepInv (empty : SimpleVector Nat) ∧
    PushBackAlloc (fun _ => false) (empty : SimpleVector Nat) 1
      = .threw { _data := [], _size := 0, _capacity := 4 } .bad_alloc ∧
    ¬ RepInv ({ _data := [], _size := 0, _capacity := 4 } : SimpleVector Nat) ∧
    PushBack ({ _data := [], _size := 0, _capacity := 4 } : SimpleVector Nat) 1 = .undefined ∧
    ofInit [1, 2]
      = .returned ({ _data := [1, 2], _size := 2, _capacity := 2 } : SimpleVector Nat) () ∧
    RepInv ({ _data := [1, 2], _size := 2, _capacity := 2 } : SimpleVector Nat) ∧
    InsertAlloc (fun _ => false)
        ({ _data := [1, 2], _size := 2, _capacity := 2 } : SimpleVector Nat) 0 9
      = .threw { _data := [1, 2], _size := 2, _capacity := 4 } .bad_alloc ∧
    ¬ RepInv ({ _data := [1, 2], _size := 2, _capacity := 4 } : SimpleVector Nat) ∧
    PushBack ({ _data := [1, 2], _size := 2, _capacity := 4 } : SimpleVector Nat) 3
      = .undefined ∧
    ReserveAlloc (fun _ => false)
        ({ _data := [1, 2], _size := 2, _capacity := 2 } : SimpleVector Nat) 5
      = .threw { _data := [1, 2], _size := 2, _capacity := 2 } .bad_alloc ∧
    ResizeAlloc (fun _ => false)
        ({ _data := [1, 2], _size := 2, _capacity := 2 } : SimpleVector Nat) 5
      = .threw { _data := [1, 2], _size := 2, _capacity := 2 } .bad_alloc := by
  decide

end SimpleVec
